import Mathlib
set_option maxRecDepth 10000

/-!
Verification of the NNGrid two-level spatial grid index
(`DataStructures/NNGrid.h` of Project-OSRM).

The C++ source is shallowly embedded: `unsigned`/`int` become `Nat`/`Int`
with explicit `% 4294967296` where wrap-around matters, `double` arithmetic
is modelled exactly over `ℚ` (all claims are settled either universally in
this exact model or at concrete inputs where every intermediate `double`
of the source is exactly representable, so the model and the machine agree
bit for bit), and operations whose C++ counterpart dereferences possibly
invalid iterators return `Option`.
-/

namespace NNGrid

/-- Truncation of a rational toward zero: the conversion a C++ `double`
undergoes when assigned to an `int`. -/
def ratTrunc (q : ℚ) : ℤ := if 0 ≤ q then ⌊q⌋ else ⌈q⌉

/-- `UINT_MAX`, the sentinel used throughout the on-disk format. -/
def UINT_MAX : Nat := 4294967295

/-- `2^32`, the modulus of C++ `unsigned` arithmetic. -/
def U32MOD : Nat := 4294967296

/-- `_Coordinate` (from `ExtractorStructs.h`, used by `NNGrid.h`): a pair of
signed 32-bit integers `(lat, lon)` in units of 1e-5 degrees. -/
structure _Coordinate where
  lat : Int
  lon : Int
deriving DecidableEq, Repr

instance : Inhabited _Coordinate := ⟨⟨0, 0⟩⟩

/-- `_Edge`: two node ids plus the two endpoint coordinates
(`edge.startCoord`/`edge.targetCoord` are filled in by `AddEdge`). -/
structure _Edge where
  start : Nat
  target : Nat
  startCoord : _Coordinate
  targetCoord : _Coordinate
deriving DecidableEq, Repr

instance : Inhabited _Edge := ⟨⟨0, 0, default, default⟩⟩

/-- `getFileIndexForLatLon` (NNGrid.h:42-59): maps a fixed-point coordinate
to its cell in the 32768x32768 file grid.  `unsigned line = 1073741824.0*y`
truncates the nonnegative `double` toward zero, i.e. takes the floor. -/
def getFileIndexForLatLon (lt ln : Int) : Nat :=
  let lat : ℚ := (lt : ℚ) / 100000
  let lon : ℚ := (ln : ℚ) / 100000
  let x : ℚ := (lon + 180) / 360
  let y : ℚ := (lat + 90) / 180
  let line1 : Nat := (⌊(1073741824 : ℚ) * y⌋).toNat
  let line : Nat := line1 - line1 % 32768
  let column : Nat := (⌊(32768 : ℚ) * x⌋).toNat
  line + column

/-- `getRAMIndexFromFileIndex` (NNGrid.h:61-71) on a nonnegative file index
(all in-range callers): coarsens a file cell to its 1024x1024 RAM cell. -/
def getRAMIndexFromFileIndex (fileIndex : Nat) : Nat :=
  let fileLine := fileIndex / 32768 / 32 * 1024
  let fileColumn := fileIndex % 32768 / 32
  fileLine + fileColumn

/-- `getRAMIndexFromFileIndex` on an arbitrary `int` argument, as invoked
from `bresenham` whose `fileIndex = (y-1)*32768 + x` may be negative: C++
`int` division/remainder truncate toward zero, and each intermediate is then
carried in `unsigned` arithmetic (mod `2^32`). -/
def getRAMIndexFromFileIndexInt (fileIndex : Int) : Nat :=
  let fileLine := ((Int.tdiv fileIndex 32768) % (U32MOD : Int)).toNat
  let fileLine := fileLine / 32 * 1024 % U32MOD
  let fileColumn := ((Int.tmod fileIndex 32768) % (U32MOD : Int)).toNat % U32MOD
  let fileColumn := fileColumn / 32
  (fileLine + fileColumn) % U32MOD

/-- `signum` (NNGrid.h:73-75). -/
def signum (x : Int) : Int := if x > 0 then 1 else if x < 0 then -1 else 0

/-- The branch parameters chosen by `bresenham` (NNGrid.h:89-99):
`(pdx, pdy, ddx, ddy, es, el)` plus the increments `incx`, `incy`. -/
structure BresParams where
  pdx : Int
  pdy : Int
  ddx : Int
  ddy : Int
  es : Int
  el : Int
deriving DecidableEq, Repr

/-- The parameter selection of `bresenham`: the x-major branch is taken
when `dx > dy` (absolute values), the y-major branch otherwise. -/
def bresParams (xstart ystart xend yend : Int) : BresParams :=
  let dx := xend - xstart
  let dy := yend - ystart
  let incx := signum dx
  let incy := signum dy
  let dx := if dx < 0 then -dx else dx
  let dy := if dy < 0 then -dy else dy
  if dy < dx then
    ⟨incx, 0, incx, incy, dy, dx⟩
  else
    ⟨0, incy, incx, incy, dx, dy⟩

/-- One grid cell as pushed by `bresenham`: the `int` file index
`(y-1)*32768 + x` converted to `unsigned` (mod `2^32`), paired with the RAM
index computed from the (possibly negative) `int` file index. -/
def bresCell (x y : Int) : Nat × Nat :=
  ((((y - 1) * 32768 + x) % (U32MOD : Int)).toNat,
   getRAMIndexFromFileIndexInt ((y - 1) * 32768 + x))

/-- The loop of `bresenham` (NNGrid.h:109-127), run for `fuel = el`
iterations from state `(x, y, err)`; emits one cell per iteration. -/
def bresLoop (p : BresParams) : Nat → Int → Int → Int → List (Nat × Nat)
  | 0, _, _, _ => []
  | t + 1, x, y, err =>
    let err1 := err - p.es
    if err1 < 0 then
      bresCell (x + p.ddx) (y + p.ddy) ::
        bresLoop p t (x + p.ddx) (y + p.ddy) (err1 + p.el)
    else
      bresCell (x + p.pdx) (y + p.pdy) :: bresLoop p t (x + p.pdx) (y + p.pdy) err1

/-- The body of `bresenham` after parameter selection: push the initial
cell, set `err = el/2`, then run the loop `el` times. -/
def bresRun (p : BresParams) (xstart ystart : Int) : List (Nat × Nat) :=
  bresCell xstart ystart :: bresLoop p p.el.toNat xstart ystart ((p.el.toNat / 2 : Nat) : Int)

/-- `bresenham` (NNGrid.h:77-128): pushes the initial cell, then one cell
per loop iteration; the loop runs `el` times with `err` starting at `el/2`. -/
def bresenham (xstart ystart xend yend : Int) : List (Nat × Nat) :=
  bresRun (bresParams xstart ystart xend yend) xstart ystart

/-- The parameters of the x-major branch (`pdx=incx, pdy=0, es=dy, el=dx`),
which the spec claims is chosen when `dx == dy`. -/
def xMajorParams (xstart ystart xend yend : Int) : BresParams :=
  ⟨signum (xend - xstart), 0, signum (xend - xstart), signum (yend - ystart),
    ((yend - ystart).natAbs : Int), ((xend - xstart).natAbs : Int)⟩

/-- The state `(x, y, err)` of the `bresenham` loop after a number of
iterations (same step function as `bresLoop`, without the emitted cells). -/
def bresLoopPos (p : BresParams) : Nat → Int × Int × Int → Int × Int × Int
  | 0, st => st
  | t + 1, st =>
    let err1 := st.2.2 - p.es
    if err1 < 0 then bresLoopPos p t (st.1 + p.ddx, st.2.1 + p.ddy, err1 + p.el)
    else bresLoopPos p t (st.1 + p.pdx, st.2.1 + p.pdy, err1)

/-- `getListOfIndexesForEdgeAndGridSize` (NNGrid.h:130-145): normalizes both
endpoints to `[0,1]`, scales to the 32768 grid (the `double` to `int`
conversion truncates toward zero) and runs `bresenham`. -/
def getListOfIndexesForEdgeAndGridSize (start target : _Coordinate) :
    List (Nat × Nat) :=
  let lat1 : ℚ := (start.lat : ℚ) / 100000
  let lon1 : ℚ := (start.lon : ℚ) / 100000
  let x1 : ℚ := (lon1 + 180) / 360
  let y1 : ℚ := (lat1 + 90) / 180
  let lat2 : ℚ := (target.lat : ℚ) / 100000
  let lon2 : ℚ := (target.lon : ℚ) / 100000
  let x2 : ℚ := (lon2 + 180) / 360
  let y2 : ℚ := (lat2 + 90) / 180
  bresenham (ratTrunc (x1 * 32768)) (ratTrunc (y1 * 32768))
    (ratTrunc (x2 * 32768)) (ratTrunc (y2 * 32768))

/-- `ComputeDistance` (NNGrid.h:558-593): projection of `inputPoint` onto
the segment `source`-`target`.  Returns `(squared distance, nearest, *r)`,
where `*r` is the value left in the caller-supplied ratio variable (initial
value `r`): the source assigns the clamped ratio to the dead local
`percentage` and never writes the clamp back through the pointer.  The
interior-branch `nearest` assignments go through `int`, truncating. -/
def ComputeDistance (inputPoint source target : _Coordinate) (r : ℚ) :
    ℚ × _Coordinate × ℚ :=
  let vY : ℚ := (target.lon : ℚ) - (source.lon : ℚ)
  let vX : ℚ := (target.lat : ℚ) - (source.lat : ℚ)
  let wY : ℚ := (inputPoint.lon : ℚ) - (source.lon : ℚ)
  let wX : ℚ := (inputPoint.lat : ℚ) - (source.lat : ℚ)
  let lengthSquared : ℚ := vX * vX + vY * vY
  let r : ℚ := if lengthSquared ≠ 0 then (vX * wX + vY * wY) / lengthSquared else r
  if r ≤ 0 then
    (wY * wY + wX * wX, source, r)
  else if 1 ≤ r then
    let dY : ℚ := (inputPoint.lon : ℚ) - (target.lon : ℚ)
    let dX : ℚ := (inputPoint.lat : ℚ) - (target.lat : ℚ)
    (dY * dY + dX * dX, target, r)
  else
    let nlat := ratTrunc ((source.lat : ℚ) + r * vX)
    let nlon := ratTrunc ((source.lon : ℚ) + r * vY)
    let dX : ℚ := (source.lat : ℚ) + r * vX - (inputPoint.lat : ℚ)
    let dY : ℚ := (source.lon : ℚ) + r * vY - (inputPoint.lon : ℚ)
    (dY * dY + dX * dX, ⟨nlat, nlon⟩, r)

/-- `GridEdgeData` (from `GridEdge.h`, not part of the sources at hand).
Modelled from the spec: "GridEntry (builder-internal). `(edge: Edge,
fileCell: u32, ramCell: u32)`"; equality (used by `std::unique`) compares
the full entry, comparison `CompareGridEdgeDataByFileIndex` orders by
`fileCell` and `CompareGridEdgeDataByRamIndex` by `ramCell`. -/
structure GridEdgeData where
  edge : _Edge
  fileIndex : Nat
  ramIndex : Nat
deriving DecidableEq, Repr

instance : Inhabited GridEdgeData := ⟨⟨default, 0, 0⟩⟩

/-- Stable insertion into a key-sorted list (the new element goes in front
of the first strictly larger key, after equal keys). -/
def insertSorted {α : Type} (key : α → Nat) (a : α) : List α → List α
  | [] => [a]
  | b :: bs => if key a ≤ key b then a :: b :: bs else b :: insertSorted key a bs

/-- Stable sort by a `Nat` key: the model for `stxxl::sort` with
`CompareGridEdgeDataByRamIndex` and for `std::sort` with
`CompareGridEdgeDataByFileIndex` (both comparators order by the key only;
for the element counts arising here libstdc++'s `std::sort` falls back to
insertion sort, which is stable). -/
def sortByKey {α : Type} (key : α → Nat) (l : List α) : List α :=
  l.foldr (insertSorted key) []

/-- `std::unique`: remove the later of any two *adjacent* equal elements,
keeping the first of each run. -/
def uniqueConsec {α : Type} [DecidableEq α] : List α → List α
  | [] => []
  | [a] => [a]
  | a :: b :: rest =>
    if a = b then uniqueConsec (b :: rest) else a :: uniqueConsec (b :: rest)

/-- The per-RAM-cell sort-and-deduplicate step of `FillCell`
(NNGrid.h:373-375): sort by `fileIndex`, then `std::unique` on the full
entry. -/
def dedupedOf (group : List GridEdgeData) : List GridEdgeData :=
  uniqueConsec (sortByKey (fun g => g.fileIndex) group)

/-- Little-endian byte serialization of a 32-bit unsigned value. -/
def u32LE (n : Nat) : List Nat :=
  [n % 256, n / 256 % 256, n / 65536 % 256, n / 16777216 % 256]

/-- Little-endian byte serialization of a 32-bit signed value
(two's complement). -/
def i32LE (z : Int) : List Nat := u32LE ((z % (U32MOD : Int)).toNat)

/-- Read a little-endian u32 from the first four bytes (missing bytes read
as 0, modelling reads past the end of the file). -/
def decodeU32 (l : List Nat) : Nat :=
  l.getD 0 0 + 256 * l.getD 1 0 + 65536 * l.getD 2 0 + 16777216 * l.getD 3 0

/-- Reinterpret a u32 bit pattern as a signed 32-bit integer. -/
def decodeI32 (n : Nat) : Int :=
  if n < 2147483648 then (n : Int) else (n : Int) - (U32MOD : Int)

/-- The 24-byte on-disk record of one edge:
`start, target, slat, slon, tlat, tlon` (NNGrid.h:441-479). -/
def serEdge (e : _Edge) : List Nat :=
  u32LE e.start ++ u32LE e.target ++ i32LE e.startCoord.lat ++
    i32LE e.startCoord.lon ++ i32LE e.targetCoord.lat ++ i32LE e.targetCoord.lon

/-- `FlushEntriesWithSameFileIndexToBuffer` (NNGrid.h:429-487): serialize
each record of one file bucket, then a 4-byte `UINT_MAX` terminator; the
returned byte count is the length of this list. -/
def FlushEntriesWithSameFileIndexToBuffer (v : List GridEdgeData) : List Nat :=
  (v.map (fun g => serEdge g.edge)).join ++ u32LE UINT_MAX

/-- The file index stored by the `cellMap` of `FillCell` /
`GetContentsOfFileBucket` (NNGrid.h:358-366, 509-517) for child slot
`s = i*32 + j`: `lineBase + i*32768 + columnBase + j` in `unsigned`
arithmetic. -/
def cellKey (ramIndex s : Nat) : Nat :=
  let lineBase := ramIndex / 1024 * 32 * 32768 % U32MOD
  let columnBase := ramIndex % 1024 * 32
  (lineBase + s / 32 * 32768 + columnBase + s % 32) % U32MOD

/-- `cellMap->find(fileIndex)`: the child slot (0..1023) whose key equals
`fileIndex`, if any (`none` models a failed lookup, which the source
asserts against and then dereferences). -/
def cellSlot (ramIndex fileIndex : Nat) : Option Nat :=
  (List.range 1024).find? (fun s => cellKey ramIndex s = fileIndex)

/-- The flush block of `FillCell` (NNGrid.h:386-394 and 400-407): look up
the child slot of the in-flight bucket\'s first entry, record
`indexIntoTmpBuffer + fileOffset` there and append the serialized bucket to
the buffer.  The first-element dereference of an empty bucket and a failed
`cellMap` lookup yield `none`. -/
def flushOne (r fileOffset : Nat) (cellIdx : Nat → Nat) (buf : List Nat)
    (cur : List GridEdgeData) : Option ((Nat → Nat) × List Nat) :=
  match cur with
  | [] => none
  | c0 :: _ =>
    match cellSlot r c0.fileIndex with
    | none => none
    | some slot =>
      some (Function.update cellIdx slot (buf.length + fileOffset),
        buf ++ FlushEntriesWithSameFileIndexToBuffer cur)

/-- The writing loop of `FillCell` (NNGrid.h:381-407) over the deduplicated
entries, including the flush of the final bucket: state is the 1024-slot
`cellIndex` directory, the payload buffer written so far, the in-flight
bucket `cur` and the current file index. -/
def FillCellLoop (r fileOffset : Nat) (cellIdx : Nat → Nat) (buf : List Nat)
    (cur : List GridEdgeData) (fi : Nat) :
    List GridEdgeData → Option ((Nat → Nat) × List Nat)
  | [] => flushOne r fileOffset cellIdx buf cur
  | e :: rest =>
    if e.fileIndex ≠ fi then
      match flushOne r fileOffset cellIdx buf cur with
      | none => none
      | some (cellIdx1, buf1) =>
        FillCellLoop r fileOffset cellIdx1 buf1 [e] e.fileIndex rest
    else
      FillCellLoop r fileOffset cellIdx buf (cur ++ [e]) fi rest

/-- `FillCell` (NNGrid.h:339-427): writes one super-bucket for a group of
entries sharing a RAM index.  Returns the bytes appended to the index file
(1024-entry child directory, then the payload region) and the byte count
`1024*4 + indexIntoTmpBuffer`; `none` when the group (or its deduplicated
form) is empty and the source would dereference `begin()` of an empty
vector. -/
def FillCell (group : List GridEdgeData) (fileOffset : Nat) :
    Option (List Nat × Nat) :=
  match group with
  | [] => none
  | g0 :: _ =>
    match dedupedOf group with
    | [] => none
    | d0 :: _ =>
      match FillCellLoop g0.ramIndex fileOffset (fun _ => UINT_MAX) [] []
          d0.fileIndex (dedupedOf group) with
      | none => none
      | some (cellIdx, payload) =>
        some ((List.range 1024).bind (fun s => u32LE (cellIdx s)) ++ payload,
          4096 + payload.length)

/-- The grouping loop of `ConstructGrid` (NNGrid.h:212-231), including the
final group: state is the RAM directory, the index-file bytes written so
far, `lastPositionInIndexFile`, the in-flight group `cur` and the current
RAM index. -/
def ConstructGridLoop (table : Nat → Nat) (file : List Nat) (lastPos : Nat)
    (cur : List GridEdgeData) (idx : Nat) :
    List GridEdgeData → Option ((Nat → Nat) × List Nat)
  | [] =>
    match FillCell cur lastPos with
    | none => none
    | some (bytes, _) => some (Function.update table idx lastPos, file ++ bytes)
  | e :: rest =>
    if e.ramIndex ≠ idx then
      match FillCell cur lastPos with
      | none => none
      | some (bytes, n) =>
        ConstructGridLoop (Function.update table idx lastPos) (file ++ bytes)
          (lastPos + n) [e] e.ramIndex rest
    else
      ConstructGridLoop table file lastPos (cur ++ [e]) idx rest

/-- `ConstructGrid` (NNGrid.h:196-253): sort all entries by RAM index, group
them, write one super-bucket per group and record its offset in the RAM
directory (initially all `UINT_MAX`).  Returns the RAM directory and the
index-file bytes; `none` models the `entries->begin()->ramIndex`
dereference on an empty entry sequence (NNGrid.h:206). -/
def ConstructGrid (entries : List GridEdgeData) :
    Option ((Nat → Nat) × List Nat) :=
  match sortByKey (fun g => g.ramIndex) entries with
  | [] => none
  | s0 :: rest =>
    ConstructGridLoop (fun _ => UINT_MAX) [] 0 [] s0.ramIndex (s0 :: rest)

/-- `AddEdge` (NNGrid.h:183-194): the entries appended to the external
sequence for one edge — one `GridEdgeData` per rasterized cell, with the
endpoint coordinates stored into the edge. -/
def AddEdge (edge : _Edge) (start target : _Coordinate) : List GridEdgeData :=
  let edge1 : _Edge := { edge with
    startCoord := start
    targetCoord := target }
  (getListOfIndexesForEdgeAndGridSize start target).map
    (fun pr => ⟨edge1, pr.1, pr.2⟩)

/-- One step of the record-reading loop of `GetContentsOfFileBucket`
(NNGrid.h:535-553), with structural fuel: stop on end of data (fewer than 4
bytes for the leading id) or on the `UINT_MAX` sentinel, otherwise read one
24-byte record and continue.  Each iteration consumes 24 bytes, so any fuel
of at least the byte count is exact. -/
def readRecordsGo : Nat → List Nat → List _Edge
  | 0, _ => []
  | fuel + 1, l =>
    if l.length < 4 then []
    else
      let start := decodeU32 l
      if start = UINT_MAX then []
      else
        ⟨start, decodeU32 (l.drop 4),
          ⟨decodeI32 (decodeU32 (l.drop 8)), decodeI32 (decodeU32 (l.drop 12))⟩,
          ⟨decodeI32 (decodeU32 (l.drop 16)), decodeI32 (decodeU32 (l.drop 20))⟩⟩ ::
          readRecordsGo fuel (l.drop 24)

/-- The record-reading loop of `GetContentsOfFileBucket` (NNGrid.h:535-553):
read 24-byte records until the leading u32 is `UINT_MAX` or the file ends. -/
def readRecords (l : List Nat) : List _Edge := readRecordsGo l.length l

/-- `GetContentsOfFileBucket` (NNGrid.h:489-555): look up the RAM directory,
read the 1024-entry child directory at that absolute offset, find the child
slot of `fileIndex`, and unless its entry is `UINT_MAX`, seek to
`entry + 32*32*sizeof(unsigned)` and read records.  The `file` argument is
the byte contents of the index file; a failed `cellMap` lookup (asserted
against in the source) reads nothing. -/
def GetContentsOfFileBucket (table : Nat → Nat) (file : List Nat)
    (fileIndex : Nat) : List _Edge :=
  let ramIndex := getRAMIndexFromFileIndex fileIndex
  let startIndexInFile := table ramIndex
  if startIndexInFile = UINT_MAX then []
  else
    match cellSlot ramIndex fileIndex with
    | none => []
    | some slot =>
      let d := decodeU32 ((file.drop startIndexInFile).drop (4 * slot))
      if d = UINT_MAX then []
      else readRecords (file.drop (d + 4096))

/-- The nine file indexes `fileIndex + i + j` for `j ∈ {-32768, 0, 32768}`,
`i ∈ {-1, 0, 1}` probed by `FindRoutingStarts` and `FindNearestPointOnEdge`
(NNGrid.h:259-263, 316-320), in loop order, in `unsigned` arithmetic. -/
def neighborIndexes (fileIndex : Nat) : List Nat :=
  ([-32768, 0, 32768] : List Int).bind fun j =>
    ([-1, 0, 1] : List Int).map fun i =>
      (((fileIndex : Int) + i + j) % (U32MOD : Int)).toNat

/-- The candidate collection shared by both query functions: the contents
of the nine file buckets around the coordinate's file cell. -/
def collectCandidates (table : Nat → Nat) (file : List Nat)
    (coord : _Coordinate) : List _Edge :=
  (neighborIndexes (getFileIndexForLatLon coord.lat coord.lon)).bind
    (GetContentsOfFileBucket table file)

/-- `FindNearestPointOnEdge` (NNGrid.h:311-336): scan the candidates,
keeping the projection foot of the smallest squared distance; `nearest`
starts at `(INT_MAX, INT_MAX)` and `dist` at `DBL_MAX` (modelled as `none`:
every candidate's finite squared distance beats it). -/
def FindNearestPointOnEdge (table : Nat → Nat) (file : List Nat)
    (inputCoordinate : _Coordinate) : _Coordinate :=
  let candidates := collectCandidates table file inputCoordinate
  (candidates.foldl
    (fun (acc : Option ℚ × _Coordinate) it =>
      let res := ComputeDistance inputCoordinate it.startCoord it.targetCoord 0
      match acc.1 with
      | none => (some res.1, res.2.1)
      | some dist => if res.1 < dist then (some res.1, res.2.1) else acc)
    (none, ⟨2147483647, 2147483647⟩)).2

/-- `PhantomNodes` (from `PhantomNodes.h`, not part of the sources at
hand).  Modelled from the spec: a record
`(startNode1, startNode2, startRatio, startCoord, targetNode1, targetNode2,
targetRatio, targetCoord)`. -/
structure PhantomNodes where
  startNode1 : Nat
  startNode2 : Nat
  targetNode1 : Nat
  targetNode2 : Nat
  startRatio : ℚ
  targetRatio : ℚ
  startCoord : _Coordinate
  targetCoord : _Coordinate
deriving DecidableEq, Repr

/-- `FindRoutingStarts` (NNGrid.h:255-309): fill the start-side fields from
the best candidate around `startCoord`, then the target-side fields from
the best candidate around `targetCoord`, and return `true` (the function
has no other return statement). -/
def FindRoutingStarts (table : Nat → Nat) (file : List Nat)
    (startCoord targetCoord : _Coordinate) (routingStarts : PhantomNodes) :
    Bool × PhantomNodes :=
  let acc1 := (collectCandidates table file startCoord).foldl
    (fun (acc : Option ℚ × PhantomNodes) it =>
      let res := ComputeDistance startCoord it.startCoord it.targetCoord 0
      let upd : PhantomNodes := { acc.2 with
        startNode1 := it.start
        startNode2 := it.target
        startRatio := res.2.2
        startCoord := res.2.1 }
      match acc.1 with
      | none => (some res.1, upd)
      | some dist => if res.1 < dist then (some res.1, upd) else acc)
    (none, routingStarts)
  let acc2 := (collectCandidates table file targetCoord).foldl
    (fun (acc : Option ℚ × PhantomNodes) it =>
      let res := ComputeDistance targetCoord it.startCoord it.targetCoord 0
      let upd : PhantomNodes := { acc.2 with
        targetNode1 := it.start
        targetNode2 := it.target
        targetRatio := res.2.2
        targetCoord := res.2.1 }
      match acc.1 with
      | none => (some res.1, upd)
      | some dist => if res.1 < dist then (some res.1, upd) else acc)
    (none, acc1.2)
  (true, acc2.2)

/-- The key of a run of equal-`fileIndex` entries (its head's file index). -/
def runKey (run : List GridEdgeData) : Nat := run.headI.fileIndex

/-- Maximal consecutive runs of equal `fileIndex`: the bucket grouping the
writing loop of `FillCell` performs on the (sorted, deduplicated) entries. -/
def runsByFileIndex : List GridEdgeData → List (List GridEdgeData)
  | [] => []
  | e :: rest =>
    match runsByFileIndex rest with
    | [] => [[e]]
    | r :: rs =>
      if r.headI.fileIndex = e.fileIndex then (e :: r) :: rs else [e] :: r :: rs

/-- Run-at-a-time restatement of the writing loop of `FillCell`: flush each
bucket in turn, recording `fileOffset + currentBufferLength` in its child
slot.  `FillCellLoop` is proved equal to this below. -/
def flushRuns (r fileOffset : Nat) :
    List (List GridEdgeData) → (Nat → Nat) → List Nat →
    Option ((Nat → Nat) × List Nat)
  | [], cellIdx, buf => some (cellIdx, buf)
  | run :: rs, cellIdx, buf =>
    match flushOne r fileOffset cellIdx buf run with
    | none => none
    | some (cellIdx1, buf1) => flushRuns r fileOffset rs cellIdx1 buf1

/-- Node ids and coordinates of an edge representable in the on-disk record:
ids below the `UINT_MAX` sentinel resp. within u32, coordinates within
i32. -/
def edgeInRange (e : _Edge) : Prop :=
  e.start < UINT_MAX ∧ e.target < U32MOD ∧
    -2147483648 ≤ e.startCoord.lat ∧ e.startCoord.lat < 2147483648 ∧
    -2147483648 ≤ e.startCoord.lon ∧ e.startCoord.lon < 2147483648 ∧
    -2147483648 ≤ e.targetCoord.lat ∧ e.targetCoord.lat < 2147483648 ∧
    -2147483648 ≤ e.targetCoord.lon ∧ e.targetCoord.lon < 2147483648

instance : DecidablePred edgeInRange := fun e => by
  unfold edgeInRange; infer_instance

/-- Two builder entries describing the same stored triple. -/
def sameTriple (e1 e2 : GridEdgeData) : Prop :=
  e1.edge.start = e2.edge.start ∧ e1.edge.target = e2.edge.target ∧
    e1.fileIndex = e2.fileIndex

instance : DecidableRel sameTriple := fun e1 e2 => by
  unfold sameTriple; infer_instance

/-- The consistency property every entry produced by `AddEdge` into a legal
cell enjoys: the stored RAM index matches the file index and the file index
is a legal cell of the 32768x32768 grid. -/
def validEntry (e : GridEdgeData) : Prop :=
  e.ramIndex = getRAMIndexFromFileIndex e.fileIndex ∧ e.fileIndex < 1073741824

instance : DecidablePred validEntry := fun e => by
  unfold validEntry; infer_instance

/-- A concrete one-entry group at file cell 0 / RAM cell 0, used to
exercise `FillCell` at `fileOffset = 0`. -/
def cexEntry : GridEdgeData := ⟨⟨1, 2, ⟨3, 4⟩, ⟨5, 6⟩⟩, 0, 0⟩

/-- The singleton group holding `cexEntry`. -/
def cexGroup : List GridEdgeData := [cexEntry]


end NNGrid

section Theorems
open NNGrid

lemma absIf_eq_natAbs (z : Int) : (if z < 0 then -z else z) = (z.natAbs : Int) := by
  split <;> omega

lemma bresLoop_length (p : BresParams) :
    ∀ (t : Nat) (x y err : Int), (bresLoop p t x y err).length = t := by
  intro t
  induction t with
  | zero => intro x y err; rfl
  | succ t ih =>
    intro x y err
    simp only [bresLoop]
    split <;> simp [ih]

lemma bresParams_el (xstart ystart xend yend : Int) :
    (bresParams xstart ystart xend yend).el =
      ((max (xend - xstart).natAbs (yend - ystart).natAbs : Nat) : Int) := by
  simp only [bresParams, absIf_eq_natAbs]
  split <;> rename_i hc <;> simp only [] <;> omega

/-- C8: for every pair of grid endpoints, `bresenham` emits exactly
`1 + max(|xend-xstart|, |yend-ystart|)` cells: one initial cell plus one
cell per loop iteration, the loop running `el = max(|dx|,|dy|)` times. -/
theorem C8_bresenham_cell_count (xstart ystart xend yend : Int) :
    (bresenham xstart ystart xend yend).length =
      1 + max (xend - xstart).natAbs (yend - ystart).natAbs := by
  simp only [bresenham, bresRun, List.length_cons, bresLoop_length,
    bresParams_el]
  omega

/-- C4 counterexample: for the segment (0,0)-(1,1) we have `dx == dy`, and
the branch taken is the y-major one: `pdx = 0`, `pdy = incy = 1`, `el = dy`.
The claimed x-major parameter assignment `pdx = incx (= 1), pdy = 0` is not
the one produced. -/
theorem C4_counterexample :
    bresParams 0 0 1 1 = ⟨0, 1, 1, 1, 1, 1⟩ ∧
    ¬((bresParams 0 0 1 1).pdx = signum (1 - 0) ∧ (bresParams 0 0 1 1).pdy = 0) := by
  decide

lemma bresLoop_es_eq_el (p q : BresParams) (hddx : q.ddx = p.ddx)
    (hddy : q.ddy = p.ddy) (hel : q.el = p.el) (hes : p.es = p.el)
    (hes' : q.es = q.el) :
    ∀ (t : Nat) (x y err : Int), 0 ≤ err → err < p.el →
      bresLoop p t x y err = bresLoop q t x y err := by
  intro t
  induction t with
  | zero => intro x y err _ _; rfl
  | succ t ih =>
    intro x y err h0 hlt
    simp only [bresLoop]
    rw [if_pos (show err - p.es < 0 by omega), if_pos (show err - q.es < 0 by omega)]
    rw [hddx, hddy]
    rw [show err - q.es + q.el = err - p.es + p.el by omega]
    rw [ih (x + p.ddx) (y + p.ddy) (err - p.es + p.el) (by omega) (by omega)]

lemma bresRun_es_eq_el (p q : BresParams) (hddx : q.ddx = p.ddx)
    (hddy : q.ddy = p.ddy) (hel : q.el = p.el) (hes : p.es = p.el)
    (hes' : q.es = q.el) (xstart ystart : Int) :
    bresRun p xstart ystart = bresRun q xstart ystart := by
  unfold bresRun
  rw [hel]
  congr 1
  rcases le_or_lt p.el 0 with hle | hpos
  · rw [Int.toNat_of_nonpos hle]; rfl
  · exact bresLoop_es_eq_el p q hddx hddy hel hes hes' _ _ _ _
      (by omega) (by omega)

/-- C4 amended: when `|xend-xstart| = |yend-ystart|` the Bresenham loop of
`NNGrid.h` takes the **y-major** branch (`pdx = 0`, `pdy = incy`, `es = dx`,
`el = dy`), not the x-major one; nevertheless the emitted cells coincide
with those of the x-major parameterization, because with `es = el` every
iteration performs a diagonal step. -/
theorem C4_amended (xstart ystart xend yend : Int)
    (h : (xend - xstart).natAbs = (yend - ystart).natAbs) :
    bresParams xstart ystart xend yend =
      ⟨0, signum (yend - ystart), signum (xend - xstart), signum (yend - ystart),
        ((xend - xstart).natAbs : Int), ((yend - ystart).natAbs : Int)⟩ ∧
    bresenham xstart ystart xend yend =
      bresRun (xMajorParams xstart ystart xend yend) xstart ystart := by
  have hp : bresParams xstart ystart xend yend =
      ⟨0, signum (yend - ystart), signum (xend - xstart), signum (yend - ystart),
        ((xend - xstart).natAbs : Int), ((yend - ystart).natAbs : Int)⟩ := by
    simp only [bresParams, absIf_eq_natAbs]
    rw [if_neg (by omega)]
  refine ⟨hp, ?_⟩
  rw [bresenham, hp]
  exact bresRun_es_eq_el
    ⟨0, signum (yend - ystart), signum (xend - xstart), signum (yend - ystart),
      ((xend - xstart).natAbs : Int), ((yend - ystart).natAbs : Int)⟩
    (xMajorParams xstart ystart xend yend) rfl rfl
    (show ((xend - xstart).natAbs : Int) = ((yend - ystart).natAbs : Int) by
      exact_mod_cast congrArg (Nat.cast (R := Int)) h)
    (show ((xend - xstart).natAbs : Int) = ((yend - ystart).natAbs : Int) by
      exact_mod_cast congrArg (Nat.cast (R := Int)) h)
    (show ((yend - ystart).natAbs : Int) = ((xend - xstart).natAbs : Int) by
      exact_mod_cast congrArg (Nat.cast (R := Int)) h.symm)
    xstart ystart

/-- C4 amended witness: concrete instantiation at the segment (0,0)-(2,2). -/
theorem C4_amended_witness :
    bresParams 0 0 2 2 =
      ⟨0, signum (2 - 0), signum (2 - 0), signum (2 - 0),
        (((2 : Int) - 0).natAbs : Int), (((2 : Int) - 0).natAbs : Int)⟩ ∧
    bresenham 0 0 2 2 = bresRun (xMajorParams 0 0 2 2) 0 0 :=
  C4_amended 0 0 2 2 (by decide)

/-- C2: at the spec's own test point (edge (0,0)-(1000,1000), query
(2000,2000)) the code returns foot `(1000,1000)` and `d2 = |p-b|^2` as the
claim states, but the ratio handed back through the out-parameter is the
unclamped `r = 2`, not `1`: the clamped value is assigned only to the dead
local `percentage` (NNGrid.h:572-586).  The claim (and the code's evident
intent) says the returned ratio is clamped to 1. -/
theorem C2_ratio_not_clamped :
    ComputeDistance ⟨2000, 2000⟩ ⟨0, 0⟩ ⟨1000, 1000⟩ 0 =
      (2000000, ⟨1000, 1000⟩, 2) ∧ ((2 : ℚ) ≠ 1) := by
  norm_num [ComputeDistance]

/-- C6: the claimed bounds fail at the valid coordinate
`(lat, lon) = (9_000_000, 0)` (the north pole, inside the documented
range): `getFileIndexForLatLon` returns `2^30 + 16384`, which is not below
`32768 * 32768 = 2^30`, and the RAM index computed from it is `1_049_088`,
violating the code's own `assert(ramIndex < 1024*1024)` (NNGrid.h:69). -/
theorem C6_bounds_violated_at_pole :
    getFileIndexForLatLon 9000000 0 = 1073758208 ∧
    ¬(getFileIndexForLatLon 9000000 0 < 32768 * 32768) ∧
    getRAMIndexFromFileIndex (getFileIndexForLatLon 9000000 0) = 1049088 ∧
    ¬(getRAMIndexFromFileIndex (getFileIndexForLatLon 9000000 0) < 1048576) := by
  have h : getFileIndexForLatLon 9000000 0 = 1073758208 := by
    norm_num [getFileIndexForLatLon]; decide
  refine ⟨h, ?_, ?_, ?_⟩ <;> rw [h] <;> decide

/-- C1 counterexample: on an index whose RAM directory is entirely empty
(every entry `UINT_MAX`), both 3x3 candidate collections are empty, yet
`FindRoutingStarts` still returns `true` — its only return statement is
`return true` (NNGrid.h:308); the claimed `false` result does not exist. -/
theorem C1_counterexample :
    (FindRoutingStarts (fun _ => UINT_MAX) [] ⟨0, 0⟩ ⟨0, 0⟩
        ⟨0, 0, 0, 0, 0, 0, ⟨0, 0⟩, ⟨0, 0⟩⟩).1 = true ∧
    collectCandidates (fun _ => UINT_MAX) [] ⟨0, 0⟩ = [] := by
  refine ⟨rfl, ?_⟩
  simp [collectCandidates, GetContentsOfFileBucket]

/-- C1 amended: `FindRoutingStarts` returns `true` unconditionally, for
every index, file contents and query pair — also when both 3x3 candidate
collections are empty (in which case the `PhantomNodes` value is simply
left as passed in and must not be inspected). -/
theorem C1_always_true (table : Nat → Nat) (file : List Nat)
    (startCoord targetCoord : _Coordinate) (routingStarts : PhantomNodes) :
    (FindRoutingStarts table file startCoord targetCoord routingStarts).1 = true :=
  rfl

/-- C9: `FindNearestPointOnEdge` draws its candidates exactly from the nine
file cells `fileIndex + i + j`, `i ∈ {-1,0,1}`, `j ∈ {-32768,0,32768}`
(`neighborIndexes`, over which `collectCandidates` binds), and whenever all
nine buckets are empty it returns the sentinel `(INT32_MAX, INT32_MAX)`. -/
theorem C9_empty_window_sentinel (table : Nat → Nat) (file : List Nat)
    (q : _Coordinate)
    (h : ∀ n ∈ neighborIndexes (getFileIndexForLatLon q.lat q.lon),
      GetContentsOfFileBucket table file n = []) :
    FindNearestPointOnEdge table file q = ⟨2147483647, 2147483647⟩ := by
  have hc : collectCandidates table file q = [] := by
    unfold collectCandidates
    exact List.flatMap_eq_nil_iff.mpr h
  simp [FindNearestPointOnEdge, hc]

/-- C9 witness: the all-empty RAM directory at query (0,0). -/
theorem C9_empty_window_sentinel_witness :
    FindNearestPointOnEdge (fun _ => UINT_MAX) [] ⟨0, 0⟩ =
      ⟨2147483647, 2147483647⟩ :=
  C9_empty_window_sentinel (fun _ => UINT_MAX) [] ⟨0, 0⟩
    (by intro n _; simp [GetContentsOfFileBucket])

/-- C5 counterexample: `std::unique` removes only *adjacent* duplicates.
For the group `[A, B, A]` (edges A and B rasterized to the same file cell 5,
A added twice), the stable sort by `fileIndex` leaves the order unchanged
and deduplication removes nothing: the stored sequence keeps two entries
with the identical triple `(1, 1, 5)` at non-adjacent positions. -/
theorem C5_counterexample :
    dedupedOf
        [⟨⟨1, 1, ⟨0, 0⟩, ⟨0, 0⟩⟩, 5, 0⟩, ⟨⟨2, 2, ⟨0, 0⟩, ⟨0, 0⟩⟩, 5, 0⟩,
          ⟨⟨1, 1, ⟨0, 0⟩, ⟨0, 0⟩⟩, 5, 0⟩] =
      [⟨⟨1, 1, ⟨0, 0⟩, ⟨0, 0⟩⟩, 5, 0⟩, ⟨⟨2, 2, ⟨0, 0⟩, ⟨0, 0⟩⟩, 5, 0⟩,
        ⟨⟨1, 1, ⟨0, 0⟩, ⟨0, 0⟩⟩, 5, 0⟩] ∧
    ¬ (dedupedOf
        [⟨⟨1, 1, ⟨0, 0⟩, ⟨0, 0⟩⟩, 5, 0⟩, ⟨⟨2, 2, ⟨0, 0⟩, ⟨0, 0⟩⟩, 5, 0⟩,
          ⟨⟨1, 1, ⟨0, 0⟩, ⟨0, 0⟩⟩, 5, 0⟩]).Pairwise
        (fun e1 e2 => ¬ sameTriple e1 e2) := by
  constructor
  · decide
  · decide

section SortLemmas

variable {α : Type}

lemma insertSorted_length (key : α → Nat) (a : α) (l : List α) :
    (insertSorted key a l).length = l.length + 1 := by
  induction l with
  | nil => rfl
  | cons b bs ih =>
    simp only [insertSorted]
    split <;> simp [ih]

lemma mem_insertSorted (key : α → Nat) (a x : α) (l : List α) :
    x ∈ insertSorted key a l ↔ x = a ∨ x ∈ l := by
  induction l with
  | nil => simp [insertSorted]
  | cons b bs ih =>
    simp only [insertSorted]
    split
    · simp [List.mem_cons]
    · simp only [List.mem_cons, ih]
      tauto

lemma sortByKey_cons (key : α → Nat) (b : α) (bs : List α) :
    sortByKey key (b :: bs) = insertSorted key b (sortByKey key bs) := rfl

lemma mem_sortByKey (key : α → Nat) (x : α) (l : List α) :
    x ∈ sortByKey key l ↔ x ∈ l := by
  induction l with
  | nil => simp [sortByKey]
  | cons b bs ih =>
    rw [sortByKey_cons, mem_insertSorted]
    simp [ih]

lemma sortByKey_length (key : α → Nat) (l : List α) :
    (sortByKey key l).length = l.length := by
  induction l with
  | nil => rfl
  | cons b bs ih =>
    rw [sortByKey_cons, insertSorted_length, ih, List.length_cons]

lemma uniqueConsec_sublist [DecidableEq α] (l : List α) :
    List.Sublist (uniqueConsec l) l := by
  match l with
  | [] => simp [uniqueConsec]
  | [a] => simp [uniqueConsec]
  | a :: b :: rest =>
    rw [uniqueConsec]
    split
    · exact (uniqueConsec_sublist (b :: rest)).cons a
    · exact (uniqueConsec_sublist (b :: rest)).cons₂ a
  termination_by l.length

lemma uniqueConsec_ne_nil [DecidableEq α] (l : List α) (h : l ≠ []) :
    uniqueConsec l ≠ [] := by
  match l with
  | [a] => simp [uniqueConsec]
  | a :: b :: rest =>
    rw [uniqueConsec]
    split
    · exact uniqueConsec_ne_nil (b :: rest) (by simp)
    · simp
  termination_by l.length

lemma mem_of_mem_uniqueConsec [DecidableEq α] {l : List α} {x : α}
    (h : x ∈ uniqueConsec l) : x ∈ l :=
  (uniqueConsec_sublist l).subset h

end SortLemmas

lemma find?_append_of_some {α} (l1 l2 : List α) (p : α → Bool) (a : α)
    (h : l1.find? p = some a) : (l1 ++ l2).find? p = some a := by
  induction l1 with
  | nil => simp [List.find?] at h
  | cons b bs ih =>
    rw [List.cons_append, List.find?]
    rw [List.find?] at h
    rcases hb : p b with hf | ht
    · rw [hb] at h; simp only [hb]; exact ih h
    · rw [hb] at h; simpa using h

lemma find?_append_of_none {α} (l1 l2 : List α) (p : α → Bool)
    (h : l1.find? p = none) : (l1 ++ l2).find? p = l2.find? p := by
  induction l1 with
  | nil => simp
  | cons b bs ih =>
    rw [List.cons_append, List.find?]
    rw [List.find?] at h
    rcases hb : p b with hf | ht
    · rw [hb] at h; simp only [hb]; exact ih h
    · rw [hb] at h; simp at h

lemma find?_range_eq_some {p : Nat → Bool} {n m : Nat} (hm : m < n)
    (hp : p m = true) (hprev : ∀ k < m, p k = false) :
    (List.range n).find? p = some m := by
  induction n with
  | zero => omega
  | succ n ih =>
    rw [List.range_succ]
    rcases Nat.lt_or_ge m n with hlt | hge
    · exact find?_append_of_some _ _ _ _ (ih hlt)
    · have hmn : m = n := by omega
      subst hmn
      rw [find?_append_of_none]
      · simp [hp]
      · rw [List.find?_eq_none]
        intro k hk
        simp only [List.mem_range] at hk
        simp [hprev k hk]

lemma getRAMIndexFromFileIndex_lt (fc : Nat) (hfc : fc < 1073741824) :
    getRAMIndexFromFileIndex fc < 1048576 := by
  simp only [getRAMIndexFromFileIndex]
  omega

lemma cellKey_slotOf (fc : Nat) (hfc : fc < 1073741824) :
    cellKey (getRAMIndexFromFileIndex fc) (fc / 32768 % 32 * 32 + fc % 32) = fc := by
  simp only [cellKey, getRAMIndexFromFileIndex, U32MOD]
  omega

lemma cellKey_inj {r : Nat} (hr : r < 1048576) {s s' : Nat} (hs : s < 1024)
    (hs' : s' < 1024) (h : cellKey r s = cellKey r s') : s = s' := by
  simp only [cellKey, U32MOD] at h
  omega

lemma cellSlot_eq (fc : Nat) (hfc : fc < 1073741824) :
    cellSlot (getRAMIndexFromFileIndex fc) fc =
      some (fc / 32768 % 32 * 32 + fc % 32) := by
  apply find?_range_eq_some
  · omega
  · simp [cellKey_slotOf fc hfc]
  · intro k hk
    simp only [decide_eq_false_iff_not]
    intro hkey
    have hk1024 : k < 1024 := by omega
    have hs1024 : fc / 32768 % 32 * 32 + fc % 32 < 1024 := by omega
    have := cellKey_inj (getRAMIndexFromFileIndex_lt fc hfc) hk1024 hs1024
      (hkey.trans (cellKey_slotOf fc hfc).symm)
    omega

lemma cellSlot_isSome_of_valid {e : GridEdgeData} (he : validEntry e) :
    (cellSlot e.ramIndex e.fileIndex).isSome := by
  rw [he.1, cellSlot_eq e.fileIndex he.2]
  rfl

lemma flushOne_isSome (r fo : Nat) (ci : Nat → Nat) (buf : List Nat)
    (cur : List GridEdgeData) (hne : cur ≠ [])
    (hslot : ∀ e ∈ cur, (cellSlot r e.fileIndex).isSome) :
    (flushOne r fo ci buf cur).isSome := by
  cases cur with
  | nil => exact absurd rfl hne
  | cons c0 cs =>
    have hc := hslot c0 (by simp)
    simp only [flushOne]
    cases hs : cellSlot r c0.fileIndex with
    | none => rw [hs] at hc; simp at hc
    | some s => simp

lemma FillCellLoop_isSome (r fileOffset : Nat) :
    ∀ (l : List GridEdgeData) (cellIdx : Nat → Nat) (buf : List Nat)
      (cur : List GridEdgeData) (fi : Nat),
      (∀ e ∈ cur, (cellSlot r e.fileIndex).isSome) →
      (∀ e ∈ l, (cellSlot r e.fileIndex).isSome) →
      (cur ≠ [] ∨ ∃ e0 l', l = e0 :: l' ∧ e0.fileIndex = fi) →
      (FillCellLoop r fileOffset cellIdx buf cur fi l).isSome := by
  intro l
  induction l with
  | nil =>
    intro cellIdx buf cur fi hcur _ hinv
    have hne : cur ≠ [] := by
      rcases hinv with h | ⟨e0, l', hl, _⟩
      · exact h
      · exact absurd hl (by simp)
    exact flushOne_isSome r fileOffset cellIdx buf cur hne hcur
  | cons e rest ih =>
    intro cellIdx buf cur fi hcur hl hinv
    simp only [FillCellLoop]
    split
    · rename_i hne
      have hcne : cur ≠ [] := by
        intro hc
        rcases hinv with h | ⟨e0, l', hl', hfi⟩
        · exact h hc
        · rw [List.cons.injEq] at hl'
          exact hne (hl'.1 ▸ hfi)
      have hfs := flushOne_isSome r fileOffset cellIdx buf cur hcne hcur
      cases hf : flushOne r fileOffset cellIdx buf cur with
      | none => rw [hf] at hfs; simp at hfs
      | some p =>
        cases p with
        | mk ci1 buf1 =>
          refine ih _ _ _ _ ?_ ?_ ?_
          · intro x hx; simp only [List.mem_singleton] at hx; rw [hx]
            exact hl e (by simp)
          · exact fun x hx => hl x (by simp [hx])
          · exact Or.inl (by simp)
    · refine ih _ _ _ _ ?_ ?_ ?_
      · intro x hx
        rcases List.mem_append.mp hx with hx1 | hx2
        · exact hcur x hx1
        · simp only [List.mem_singleton] at hx2; rw [hx2]
          exact hl e (by simp)
      · exact fun x hx => hl x (by simp [hx])
      · exact Or.inl (by simp)

lemma FillCell_isSome (group : List GridEdgeData) (fileOffset : Nat)
    (hne : group ≠ [])
    (hval : ∀ e ∈ group, validEntry e)
    (hsame : ∀ e ∈ group, ∀ e' ∈ group, e.ramIndex = e'.ramIndex) :
    (FillCell group fileOffset).isSome := by
  match group, hne with
  | g0 :: gs, _ =>
    simp only [FillCell]
    have hdedupne : dedupedOf (g0 :: gs) ≠ [] := by
      apply uniqueConsec_ne_nil
      intro hnil
      have : (sortByKey (fun g => g.fileIndex) (g0 :: gs)).length = 0 := by
        rw [hnil]; rfl
      rw [sortByKey_length] at this
      simp at this
    match hd : dedupedOf (g0 :: gs) with
    | [] => exact absurd hd hdedupne
    | d0 :: ds =>
      have hmem : ∀ e ∈ dedupedOf (g0 :: gs), e ∈ g0 :: gs := by
        intro e he
        exact (mem_sortByKey _ e _).mp (mem_of_mem_uniqueConsec he)
      have hslot : ∀ e ∈ dedupedOf (g0 :: gs),
          (cellSlot g0.ramIndex e.fileIndex).isSome := by
        intro e he
        have hv := hval e (hmem e he)
        have hr : e.ramIndex = g0.ramIndex :=
          hsame e (hmem e he) g0 (by simp)
        rw [← hr]
        exact cellSlot_isSome_of_valid hv
      have hsome := FillCellLoop_isSome g0.ramIndex fileOffset (dedupedOf (g0 :: gs))
        (fun _ => UINT_MAX) [] [] d0.fileIndex
        (by intro x hx; simp at hx)
        hslot
        (Or.inr ⟨d0, ds, hd, rfl⟩)
      rw [hd] at hsome
      obtain ⟨⟨ci, pl⟩, hloop⟩ := Option.isSome_iff_exists.mp hsome
      simp [hloop]

lemma ConstructGridLoop_isSome :
    ∀ (l : List GridEdgeData) (table : Nat → Nat) (file : List Nat)
      (lastPos : Nat) (cur : List GridEdgeData) (idx : Nat),
      (∀ e ∈ cur, validEntry e ∧ e.ramIndex = idx) →
      (∀ e ∈ l, validEntry e) →
      (cur ≠ [] ∨ ∃ e0 l', l = e0 :: l' ∧ e0.ramIndex = idx) →
      (ConstructGridLoop table file lastPos cur idx l).isSome := by
  intro l
  induction l with
  | nil =>
    intro table file lastPos cur idx hcur _ hinv
    have hne : cur ≠ [] := by
      rcases hinv with h | ⟨e0, l', hl, _⟩
      · exact h
      · exact absurd hl (by simp)
    have hfc := FillCell_isSome cur lastPos hne
      (fun e he => (hcur e he).1)
      (fun e he e' he' => ((hcur e he).2).trans ((hcur e' he').2).symm)
    simp only [ConstructGridLoop]
    split
    · rename_i hcell
      rw [hcell] at hfc
      simp at hfc
    · simp
  | cons e rest ih =>
    intro table file lastPos cur idx hcur hl hinv
    simp only [ConstructGridLoop]
    split
    · rename_i hne
      have hcne : cur ≠ [] := by
        intro hc
        rcases hinv with h | ⟨e0, l', hl', hfi⟩
        · exact h hc
        · rw [List.cons.injEq] at hl'
          exact hne (hl'.1 ▸ hfi)
      have hfc := FillCell_isSome cur lastPos hcne
        (fun x hx => (hcur x hx).1)
        (fun x hx x' hx' => ((hcur x hx).2).trans ((hcur x' hx').2).symm)
      split
      · rename_i hcell
        rw [hcell] at hfc
        simp at hfc
      · refine ih _ _ _ _ _ ?_ ?_ ?_
        · intro x hx; simp only [List.mem_singleton] at hx; rw [hx]
          exact ⟨hl e (by simp), rfl⟩
        · exact fun x hx => hl x (by simp [hx])
        · exact Or.inl (by simp)
    · rename_i heq
      simp only [ne_eq, Decidable.not_not] at heq
      refine ih _ _ _ _ _ ?_ ?_ ?_
      · intro x hx
        rcases List.mem_append.mp hx with hx1 | hx2
        · exact hcur x hx1
        · simp only [List.mem_singleton] at hx2; rw [hx2]
          exact ⟨hl e (by simp), heq⟩
      · exact fun x hx => hl x (by simp [hx])
      · exact Or.inl (by simp)

/-- C10: `ConstructGrid` succeeds exactly on non-empty entry sequences:
calling it on a builder to which no edge was added dereferences
`entries->begin()` of an empty container (modelled as `none`), and under
the precondition that at least one (consistent) entry exists, every group
handed to `FillCell` is non-empty and all first-element dereferences are
defined, so the embedded build is `some`. -/
theorem C10_build_requires_nonempty (entries : List GridEdgeData)
    (hval : ∀ e ∈ entries, validEntry e) :
    (ConstructGrid entries).isSome ↔ entries ≠ [] := by
  constructor
  · intro hsome hnil
    subst hnil
    simp [ConstructGrid, sortByKey] at hsome
  · intro hne
    unfold ConstructGrid
    have hlen : (sortByKey (fun g => g.ramIndex) entries).length = entries.length :=
      sortByKey_length _ _
    cases hs : sortByKey (fun g => g.ramIndex) entries with
    | nil =>
      exfalso
      rw [hs] at hlen
      exact hne (List.length_eq_zero.mp hlen.symm)
    | cons s0 rest =>
      show (ConstructGridLoop (fun _ => UINT_MAX) [] 0 [] s0.ramIndex
        (s0 :: rest)).isSome = true
      apply ConstructGridLoop_isSome
      · intro x hx; simp at hx
      · intro x hx
        apply hval
        rw [← mem_sortByKey (fun g => g.ramIndex) x entries, hs]
        exact hx
      · exact Or.inr ⟨s0, rest, rfl, rfl⟩

/-- C10 witness: one valid entry (file cell 0, RAM cell 0) builds; the
empty entry list does not. -/
theorem C10_build_requires_nonempty_witness :
    ((ConstructGrid [⟨⟨1, 2, ⟨3, 4⟩, ⟨5, 6⟩⟩, 0, 0⟩]).isSome ↔
      ([⟨⟨1, 2, ⟨3, 4⟩, ⟨5, 6⟩⟩, 0, 0⟩] : List GridEdgeData) ≠ []) ∧
    ((ConstructGrid ([] : List GridEdgeData)).isSome ↔
      ([] : List GridEdgeData) ≠ []) :=
  ⟨C10_build_requires_nonempty _ (by decide),
   C10_build_requires_nonempty [] (by decide)⟩


lemma natAbs_mul_signum (z : Int) : (z.natAbs : Int) * signum z = z := by
  unfold signum
  split
  · omega
  · split <;> omega

lemma ratTrunc_eq_floor {q : ℚ} (h : 0 ≤ q) : ratTrunc q = ⌊q⌋ := by
  simp [ratTrunc, h]

lemma floor_div_32768 (q : ℚ) : ⌊q / 32768⌋ = ⌊q⌋ / 32768 := by
  have h1 : ((⌊q⌋ : ℚ)) ≤ q := Int.floor_le q
  have h2 : q < ⌊q⌋ + 1 := Int.lt_floor_add_one q
  have h3 : 32768 * (⌊q⌋ / 32768) ≤ ⌊q⌋ ∧ ⌊q⌋ < 32768 * (⌊q⌋ / 32768) + 32768 := by
    omega
  rw [Int.floor_eq_iff]
  constructor
  · rw [le_div_iff (by norm_num : (0:ℚ) < 32768)]
    calc ((⌊q⌋ / 32768 : Int) : ℚ) * 32768 = ((32768 * (⌊q⌋ / 32768) : Int) : ℚ) := by
          push_cast; ring
    _ ≤ ((⌊q⌋ : Int) : ℚ) := by exact_mod_cast h3.1
    _ ≤ q := h1
  · rw [div_lt_iff (by norm_num : (0:ℚ) < 32768)]
    calc q < ((⌊q⌋ : Int) : ℚ) + 1 := h2
    _ ≤ ((32768 * (⌊q⌋ / 32768) + 32768 : Int) : ℚ) := by
          have : ⌊q⌋ + 1 ≤ 32768 * (⌊q⌋ / 32768) + 32768 := by omega
          push_cast
          exact_mod_cast this
    _ = (((⌊q⌋ / 32768 : Int) : ℚ) + 1) * 32768 := by push_cast; ring

lemma getFileIndexForLatLon_decomp (lt ln : Int)
    (hy : 0 ≤ ((lt : ℚ) / 100000 + 90) / 180)
    (hx : 0 ≤ ((ln : ℚ) / 100000 + 180) / 360) :
    (getFileIndexForLatLon lt ln : Int) =
      32768 * ⌊(32768 : ℚ) * (((lt : ℚ) / 100000 + 90) / 180)⌋ +
        ⌊(32768 : ℚ) * (((ln : ℚ) / 100000 + 180) / 360)⌋ := by
  simp only [getFileIndexForLatLon]
  have hfy : 0 ≤ ⌊(1073741824 : ℚ) * (((lt : ℚ) / 100000 + 90) / 180)⌋ :=
    Int.floor_nonneg.mpr (by positivity)
  have hfx : 0 ≤ ⌊(32768 : ℚ) * (((ln : ℚ) / 100000 + 180) / 360)⌋ :=
    Int.floor_nonneg.mpr (by positivity)
  have harg : (1073741824 : ℚ) * (((lt : ℚ) / 100000 + 90) / 180) / 32768 =
      32768 * (((lt : ℚ) / 100000 + 90) / 180) := by ring
  have hLdiv : ⌊(1073741824 : ℚ) * (((lt : ℚ) / 100000 + 90) / 180)⌋ / 32768 =
      ⌊(32768 : ℚ) * (((lt : ℚ) / 100000 + 90) / 180)⌋ := by
    rw [← harg, floor_div_32768]
  rw [Nat.cast_add, Nat.cast_sub (Nat.mod_le _ _)]
  push_cast [Int.toNat_of_nonneg hfy, Int.toNat_of_nonneg hfx]
  omega

lemma bresLoop_mem_final (p : BresParams) :
    ∀ (t : Nat) (x y err : Int), 1 ≤ t →
      bresCell (bresLoopPos p t (x, y, err)).1 (bresLoopPos p t (x, y, err)).2.1 ∈
        bresLoop p t x y err := by
  intro t
  induction t with
  | zero => intro x y err h; omega
  | succ t ih =>
    intro x y err _
    simp only [bresLoop, bresLoopPos]
    split
    · rcases Nat.eq_zero_or_pos t with rfl | hpos
      · simp [bresLoopPos]
      · exact List.mem_cons_of_mem _ (ih _ _ _ hpos)
    · rcases Nat.eq_zero_or_pos t with rfl | hpos
      · simp [bresLoopPos]
      · exact List.mem_cons_of_mem _ (ih _ _ _ hpos)

lemma bresLoopPos_spec (p : BresParams) (hes0 : 0 ≤ p.es) (hesel : p.es ≤ p.el) :
    ∀ (t : Nat) (x y err : Int), 0 ≤ err → err < p.el →
      ∃ d : Int, 0 ≤ d ∧ d ≤ (t : Int) ∧
        bresLoopPos p t (x, y, err) =
          (x + d * p.ddx + ((t : Int) - d) * p.pdx,
           y + d * p.ddy + ((t : Int) - d) * p.pdy,
           err - (t : Int) * p.es + d * p.el) ∧
        0 ≤ err - (t : Int) * p.es + d * p.el ∧
        err - (t : Int) * p.es + d * p.el < p.el := by
  intro t
  induction t with
  | zero =>
    intro x y err h0 h1
    refine ⟨0, le_refl 0, by simp, ?_, by simpa, by simpa⟩
    simp [bresLoopPos]
  | succ t ih =>
    intro x y err h0 h1
    simp only [bresLoopPos]
    split
    · rename_i hdiag
      obtain ⟨d, hd0, hdt, heq, hb0, hb1⟩ :=
        ih (x + p.ddx) (y + p.ddy) (err - p.es + p.el) (by omega) (by omega)
      refine ⟨d + 1, by omega, by push_cast; omega, ?_, ?_, ?_⟩
      · rw [heq]
        simp only [Prod.mk.injEq]
        refine ⟨by push_cast; ring, by push_cast; ring, by push_cast; ring⟩
      · have hrw : err - ((t : Int) + 1) * p.es + (d + 1) * p.el =
            err - p.es + p.el - (t : Int) * p.es + d * p.el := by ring
        push_cast
        rw [hrw]
        exact hb0
      · have hrw : err - ((t : Int) + 1) * p.es + (d + 1) * p.el =
            err - p.es + p.el - (t : Int) * p.es + d * p.el := by ring
        push_cast
        rw [hrw]
        exact hb1
    · rename_i hpar
      obtain ⟨d, hd0, hdt, heq, hb0, hb1⟩ :=
        ih (x + p.pdx) (y + p.pdy) (err - p.es) (by omega) (by omega)
      refine ⟨d, hd0, by push_cast; omega, ?_, ?_, ?_⟩
      · rw [heq]
        simp only [Prod.mk.injEq]
        refine ⟨by push_cast; ring, by push_cast; ring, by push_cast; ring⟩
      · have hrw : err - ((t : Int) + 1) * p.es + d * p.el =
            err - p.es - (t : Int) * p.es + d * p.el := by ring
        push_cast
        rw [hrw]
        exact hb0
      · have hrw : err - ((t : Int) + 1) * p.es + d * p.el =
            err - p.es - (t : Int) * p.es + d * p.el := by ring
        push_cast
        rw [hrw]
        exact hb1

lemma pin_diag_count {A B d e0 : Int} (hA : 1 ≤ A) (he0 : 0 ≤ e0) (he0a : e0 < A)
    (hb0 : 0 ≤ e0 - A * B + d * A) (hb1 : e0 - A * B + d * A < A) : d = B := by
  rcases lt_trichotomy d B with h | h | h
  · exfalso
    have h1 : d + 1 ≤ B := by omega
    have h2 : A * (d + 1) ≤ A * B := mul_le_mul_of_nonneg_left h1 (by omega)
    nlinarith
  · exact h
  · exfalso
    have h1 : B + 1 ≤ d := by omega
    have h2 : A * (B + 1) ≤ A * d := mul_le_mul_of_nonneg_left h1 (by omega)
    nlinarith

lemma bresenham_endpoint (xs ys xe ye : Int) :
    (bresLoopPos (bresParams xs ys xe ye) (bresParams xs ys xe ye).el.toNat
      (xs, ys, (((bresParams xs ys xe ye).el.toNat / 2 : Nat) : Int))).1 = xe ∧
    (bresLoopPos (bresParams xs ys xe ye) (bresParams xs ys xe ye).el.toNat
      (xs, ys, (((bresParams xs ys xe ye).el.toNat / 2 : Nat) : Int))).2.1 = ye := by
  simp only [bresParams, absIf_eq_natAbs]
  split
  · rename_i hcond
    set A : Int := ((xe - xs).natAbs : Int) with hA
    set B : Int := ((ye - ys).natAbs : Int) with hB
    have hA1 : 1 ≤ A := by omega
    obtain ⟨d, hd0, hdt, heq, hb0, hb1⟩ :=
      bresLoopPos_spec ⟨signum (xe - xs), 0, signum (xe - xs), signum (ye - ys), B, A⟩
        (by simp only []; omega) (by simp only []; omega) A.toNat xs ys
        ((A.toNat / 2 : Nat) : Int) (by omega) (by simp only []; omega)
    simp only [] at heq hb0 hb1
    have htA : ((A.toNat : Nat) : Int) = A := by omega
    rw [htA] at heq hb0 hb1 hdt
    have hd : d = B := by
      refine pin_diag_count hA1 (show (0:Int) ≤ ((A.toNat / 2 : Nat) : Int) by omega)
        (by omega) hb0 hb1
    rw [heq]
    constructor
    · show xs + d * signum (xe - xs) + (A - d) * signum (xe - xs) = xe
      have hstep : xs + d * signum (xe - xs) + (A - d) * signum (xe - xs) =
          xs + A * signum (xe - xs) := by ring
      rw [hstep, hA, natAbs_mul_signum]
      ring
    · show ys + d * signum (ye - ys) + (A - d) * 0 = ye
      have hstep : ys + d * signum (ye - ys) + (A - d) * 0 =
          ys + d * signum (ye - ys) := by ring
      rw [hstep, hd, hB, natAbs_mul_signum]
      ring
  · rename_i hcond
    set DX : Int := ((xe - xs).natAbs : Int) with hDX
    set DY : Int := ((ye - ys).natAbs : Int) with hDY
    have hle : DX ≤ DY := by omega
    rcases eq_or_lt_of_le (show (0:Int) ≤ DY by omega) with hzero | hpos
    · have hDY0 : DY = 0 := hzero.symm
      have hDX0 : DX = 0 := by omega
      have hxe : xe = xs := by omega
      have hye : ye = ys := by omega
      have ht0 : DY.toNat = 0 := by omega
      rw [ht0]
      simp [bresLoopPos, hxe, hye]
    · have hDY1 : 1 ≤ DY := hpos
      obtain ⟨d, hd0, hdt, heq, hb0, hb1⟩ :=
        bresLoopPos_spec ⟨0, signum (ye - ys), signum (xe - xs), signum (ye - ys), DX, DY⟩
          (by simp only []; omega) (by simp only []; omega) DY.toNat xs ys
          ((DY.toNat / 2 : Nat) : Int) (by omega) (by simp only []; omega)
      simp only [] at heq hb0 hb1
      have htA : ((DY.toNat : Nat) : Int) = DY := by omega
      rw [htA] at heq hb0 hb1 hdt
      have hd : d = DX := by
        refine pin_diag_count hDY1 (show (0:Int) ≤ ((DY.toNat / 2 : Nat) : Int) by omega)
          (by omega) hb0 hb1
      rw [heq]
      constructor
      · show xs + d * signum (xe - xs) + (DY - d) * 0 = xe
        have hstep : xs + d * signum (xe - xs) + (DY - d) * 0 =
            xs + d * signum (xe - xs) := by ring
        rw [hstep, hd, hDX, natAbs_mul_signum]
        ring
      · show ys + d * signum (ye - ys) + (DY - d) * signum (ye - ys) = ye
        have hstep : ys + d * signum (ye - ys) + (DY - d) * signum (ye - ys) =
            ys + DY * signum (ye - ys) := by ring
        rw [hstep, hDY, natAbs_mul_signum]
        ring


/-- C7: for every edge `(a, b)` with valid endpoint coordinates, the cell
sequence produced by `getListOfIndexesForEdgeAndGridSize` contains (as first
components, i.e. file cells) both `fileCellOf(a) - 32768` and
`fileCellOf(b) - 32768` (in `unsigned` arithmetic, matching the stored
values): every emitted cell uses the row base `(y-1)*32768 + x`, the first
emitted cell is that of `a` and the Bresenham loop ends exactly at `b`'s
grid point. -/
theorem C7_rasterize_contains_endpoint_cells (a b : _Coordinate)
    (ha1 : -9000000 ≤ a.lat) (ha2 : a.lat ≤ 9000000)
    (ha3 : -18000000 ≤ a.lon) (ha4 : a.lon ≤ 18000000)
    (hb1 : -9000000 ≤ b.lat) (hb2 : b.lat ≤ 9000000)
    (hb3 : -18000000 ≤ b.lon) (hb4 : b.lon ≤ 18000000) :
    (((getFileIndexForLatLon a.lat a.lon : Int) - 32768) % (U32MOD : Int)).toNat ∈
      (getListOfIndexesForEdgeAndGridSize a b).map Prod.fst ∧
    (((getFileIndexForLatLon b.lat b.lon : Int) - 32768) % (U32MOD : Int)).toNat ∈
      (getListOfIndexesForEdgeAndGridSize a b).map Prod.fst := by
  have hya : (0:ℚ) ≤ ((a.lat : ℚ) / 100000 + 90) / 180 := by
    have h : (-9000000 : ℚ) ≤ (a.lat : ℚ) := by exact_mod_cast ha1
    linarith
  have hxa : (0:ℚ) ≤ ((a.lon : ℚ) / 100000 + 180) / 360 := by
    have h : (-18000000 : ℚ) ≤ (a.lon : ℚ) := by exact_mod_cast ha3
    linarith
  have hyb : (0:ℚ) ≤ ((b.lat : ℚ) / 100000 + 90) / 180 := by
    have h : (-9000000 : ℚ) ≤ (b.lat : ℚ) := by exact_mod_cast hb1
    linarith
  have hxb : (0:ℚ) ≤ ((b.lon : ℚ) / 100000 + 180) / 360 := by
    have h : (-18000000 : ℚ) ≤ (b.lon : ℚ) := by exact_mod_cast hb3
    linarith
  have hgl : getListOfIndexesForEdgeAndGridSize a b =
      bresenham ⌊(32768 : ℚ) * (((a.lon : ℚ) / 100000 + 180) / 360)⌋
        ⌊(32768 : ℚ) * (((a.lat : ℚ) / 100000 + 90) / 180)⌋
        ⌊(32768 : ℚ) * (((b.lon : ℚ) / 100000 + 180) / 360)⌋
        ⌊(32768 : ℚ) * (((b.lat : ℚ) / 100000 + 90) / 180)⌋ := by
    simp only [getListOfIndexesForEdgeAndGridSize]
    rw [ratTrunc_eq_floor (mul_nonneg hxa (by norm_num)),
      ratTrunc_eq_floor (mul_nonneg hya (by norm_num)),
      ratTrunc_eq_floor (mul_nonneg hxb (by norm_num)),
      ratTrunc_eq_floor (mul_nonneg hyb (by norm_num)),
      mul_comm (((a.lon : ℚ) / 100000 + 180) / 360) (32768 : ℚ),
      mul_comm (((a.lat : ℚ) / 100000 + 90) / 180) (32768 : ℚ),
      mul_comm (((b.lon : ℚ) / 100000 + 180) / 360) (32768 : ℚ),
      mul_comm (((b.lat : ℚ) / 100000 + 90) / 180) (32768 : ℚ)]
  set XS : Int := ⌊(32768 : ℚ) * (((a.lon : ℚ) / 100000 + 180) / 360)⌋ with hXSdef
  set YS : Int := ⌊(32768 : ℚ) * (((a.lat : ℚ) / 100000 + 90) / 180)⌋ with hYSdef
  set XE : Int := ⌊(32768 : ℚ) * (((b.lon : ℚ) / 100000 + 180) / 360)⌋ with hXEdef
  set YE : Int := ⌊(32768 : ℚ) * (((b.lat : ℚ) / 100000 + 90) / 180)⌋ with hYEdef
  have hdA := getFileIndexForLatLon_decomp a.lat a.lon hya hxa
  have hdB := getFileIndexForLatLon_decomp b.lat b.lon hyb hxb
  rw [← hYSdef, ← hXSdef] at hdA
  rw [← hYEdef, ← hXEdef] at hdB
  constructor
  · rw [hgl]
    have hhead : bresCell XS YS ∈ bresenham XS YS XE YE :=
      List.mem_cons_self _ _
    have hfst : (bresCell XS YS).1 =
        (((getFileIndexForLatLon a.lat a.lon : Int) - 32768) % (U32MOD : Int)).toNat := by
      simp only [bresCell]
      congr 2
      rw [hdA]
      ring
    rw [← hfst]
    exact List.mem_map_of_mem Prod.fst hhead
  · rw [hgl]
    rcases Nat.eq_zero_or_pos (bresParams XS YS XE YE).el.toNat with hz | hpos
    · have hel := bresParams_el XS YS XE YE
      have hXE : XE = XS := by omega
      have hYE : YE = YS := by omega
      have hhead : bresCell XS YS ∈ bresenham XS YS XE YE :=
        List.mem_cons_self _ _
      have hfst : (bresCell XS YS).1 =
          (((getFileIndexForLatLon b.lat b.lon : Int) - 32768) % (U32MOD : Int)).toNat := by
        simp only [bresCell]
        congr 2
        rw [hdB, hXE, hYE]
        ring
      rw [← hfst]
      exact List.mem_map_of_mem Prod.fst hhead
    · have hfin := bresenham_endpoint XS YS XE YE
      have hmem := bresLoop_mem_final (bresParams XS YS XE YE)
        (bresParams XS YS XE YE).el.toNat XS YS
        ((((bresParams XS YS XE YE).el.toNat / 2 : Nat)) : Int) hpos
      rw [hfin.1, hfin.2] at hmem
      have hmem2 : bresCell XE YE ∈ bresenham XS YS XE YE :=
        List.mem_cons_of_mem _ hmem
      have hfst : (bresCell XE YE).1 =
          (((getFileIndexForLatLon b.lat b.lon : Int) - 32768) % (U32MOD : Int)).toNat := by
        simp only [bresCell]
        congr 2
        rw [hdB]
        ring
      rw [← hfst]
      exact List.mem_map_of_mem Prod.fst hmem2

/-- C7 witness: the edge (0,0)-(1000,1000). -/
theorem C7_rasterize_contains_endpoint_cells_witness :
    (((getFileIndexForLatLon (_Coordinate.mk 0 0).lat (_Coordinate.mk 0 0).lon : Int) -
        32768) % (U32MOD : Int)).toNat ∈
      (getListOfIndexesForEdgeAndGridSize ⟨0, 0⟩ ⟨1000, 1000⟩).map Prod.fst ∧
    (((getFileIndexForLatLon (_Coordinate.mk 1000 1000).lat
        (_Coordinate.mk 1000 1000).lon : Int) - 32768) % (U32MOD : Int)).toNat ∈
      (getListOfIndexesForEdgeAndGridSize ⟨0, 0⟩ ⟨1000, 1000⟩).map Prod.fst :=
  C7_rasterize_contains_endpoint_cells ⟨0, 0⟩ ⟨1000, 1000⟩
    (by decide) (by decide) (by decide) (by decide)
    (by decide) (by decide) (by decide) (by decide)


lemma uniqueConsec_cons_head {α : Type} [DecidableEq α] (b : α) (rest : List α) :
    ∃ t, uniqueConsec (b :: rest) = b :: t := by
  match rest with
  | [] => exact ⟨[], rfl⟩
  | c :: r =>
    rw [uniqueConsec]
    split
    · rename_i hbc
      obtain ⟨t, ht⟩ := uniqueConsec_cons_head c r
      exact ⟨t, by rw [ht, hbc]⟩
    · exact ⟨uniqueConsec (c :: r), rfl⟩
  termination_by rest.length

lemma uniqueConsec_chain' {α : Type} [DecidableEq α] (l : List α) :
    List.Chain' (· ≠ ·) (uniqueConsec l) := by
  match l with
  | [] => simp [uniqueConsec]
  | [a] => simp [uniqueConsec]
  | a :: b :: rest =>
    rw [uniqueConsec]
    split
    · exact uniqueConsec_chain' (b :: rest)
    · rename_i hab
      obtain ⟨t, ht⟩ := uniqueConsec_cons_head b rest
      rw [ht, List.chain'_cons]
      exact ⟨hab, ht ▸ uniqueConsec_chain' (b :: rest)⟩
  termination_by l.length

lemma mem_uniqueConsec_of_mem {α : Type} [DecidableEq α] :
    ∀ (l : List α) (x : α), x ∈ l → x ∈ uniqueConsec l
  | [], x, hx => by simp at hx
  | [a], x, hx => by simpa [uniqueConsec] using hx
  | a :: b :: rest, x, hx => by
    rw [uniqueConsec]
    split
    · rename_i hab
      apply mem_uniqueConsec_of_mem (b :: rest) x
      rcases List.mem_cons.mp hx with h | h
      · rw [h, hab]; simp
      · exact h
    · rcases List.mem_cons.mp hx with h | h
      · simp [h]
      · exact List.mem_cons_of_mem _ (mem_uniqueConsec_of_mem (b :: rest) x h)
  termination_by l => l.length

lemma mem_uniqueConsec {α : Type} [DecidableEq α] (l : List α) (x : α) :
    x ∈ uniqueConsec l ↔ x ∈ l :=
  ⟨mem_of_mem_uniqueConsec, mem_uniqueConsec_of_mem l x⟩

lemma insertSorted_pairwise {α : Type} (key : α → Nat) (a : α) (l : List α)
    (h : l.Pairwise (fun x y => key x ≤ key y)) :
    (insertSorted key a l).Pairwise (fun x y => key x ≤ key y) := by
  induction l with
  | nil => simp [insertSorted]
  | cons b bs ih =>
    rw [insertSorted]
    rcases List.pairwise_cons.mp h with ⟨hb, hbs⟩
    split
    · rename_i hab
      rw [List.pairwise_cons]
      constructor
      · intro x hx
        rcases List.mem_cons.mp hx with rfl | hx'
        · exact hab
        · exact le_trans hab (hb x hx')
      · exact h
    · rename_i hab
      rw [List.pairwise_cons]
      constructor
      · intro x hx
        rcases (mem_insertSorted key a x bs).mp hx with rfl | hx'
        · omega
        · exact hb x hx'
      · exact ih hbs

lemma sortByKey_pairwise {α : Type} (key : α → Nat) (l : List α) :
    (sortByKey key l).Pairwise (fun x y => key x ≤ key y) := by
  induction l with
  | nil => simp [sortByKey]
  | cons b bs ih =>
    rw [sortByKey_cons]
    exact insertSorted_pairwise key b _ ih

lemma pairwise_lt_of_sorted_chain {α : Type} (key : α → Nat) :
    ∀ (l : List α), l.Pairwise (fun x y => key x ≤ key y) →
      List.Chain' (· ≠ ·) l →
      (∀ x ∈ l, ∀ y ∈ l, key x = key y → x = y) →
      l.Pairwise (fun x y => key x < key y) := by
  intro l
  induction l with
  | nil => intro _ _ _; simp
  | cons a l' ih =>
    intro hs hc hu
    rcases List.pairwise_cons.mp hs with ⟨ha, hs'⟩
    rw [List.pairwise_cons]
    constructor
    · intro x hx
      rcases Nat.lt_or_ge (key a) (key x) with h | h
      · exact h
      · exfalso
        cases l' with
        | nil => simp at hx
        | cons b t =>
          have hneq : a ≠ b := (List.chain'_cons.mp hc).1
          have hkb : key a ≤ key b := ha b (by simp)
          have hbx : key b ≤ key x := by
            rcases List.mem_cons.mp hx with rfl | hx'
            · exact le_refl _
            · exact (List.pairwise_cons.mp hs').1 x hx'
          have hkeq : key a = key b := by omega
          exact hneq (hu a (by simp) b (by simp) hkeq)
    · exact ih hs' hc.tail
        (fun x hx y hy h => hu x (by simp [hx]) y (by simp [hy]) h)

lemma eq_of_pairwise_lt_mem_iff {α : Type} (key : α → Nat) :
    ∀ (l1 l2 : List α), l1.Pairwise (fun x y => key x < key y) →
      l2.Pairwise (fun x y => key x < key y) →
      (∀ x, x ∈ l1 ↔ x ∈ l2) → l1 = l2 := by
  intro l1
  induction l1 with
  | nil =>
    intro l2 _ _ hm
    cases l2 with
    | nil => rfl
    | cons b t2 => exact absurd ((hm b).mpr (by simp)) (by simp)
  | cons a t1 ih =>
    intro l2 h1 h2 hm
    cases l2 with
    | nil => exact absurd ((hm a).mp (by simp)) (by simp)
    | cons b t2 =>
      have hab : a = b := by
        rcases List.mem_cons.mp ((hm a).mp (by simp)) with h | hat2
        · exact h
        · rcases List.mem_cons.mp ((hm b).mpr (by simp)) with h | hbt1
          · exact h.symm
          · exfalso
            have hx1 : key a < key b := (List.pairwise_cons.mp h1).1 b hbt1
            have hx2 : key b < key a := (List.pairwise_cons.mp h2).1 a hat2
            omega
      subst hab
      congr 1
      apply ih t2 (List.pairwise_cons.mp h1).2 (List.pairwise_cons.mp h2).2
      intro x
      constructor
      · intro hx
        have hxa : key a < key x := (List.pairwise_cons.mp h1).1 x hx
        rcases List.mem_cons.mp ((hm x).mp (List.mem_cons_of_mem _ hx)) with rfl | h
        · omega
        · exact h
      · intro hx
        have hxa : key a < key x := (List.pairwise_cons.mp h2).1 x hx
        rcases List.mem_cons.mp ((hm x).mpr (List.mem_cons_of_mem _ hx)) with rfl | h
        · omega
        · exact h

/-- C5 amended: the sort-and-`std::unique` step guarantees only that no two
*adjacent* stored entries are equal.  When every two group entries sharing a
file cell are identical — in particular when the group is the rasterization
of a single edge, added once or several times — no two stored entries share
a `(start, target, fileCell)` triple, and adding the same edge twice yields
exactly the same stored sequence (and `FillCell` payload) as adding it
once. -/
theorem C5_amended (l : List GridEdgeData) :
    List.Chain' (· ≠ ·) (dedupedOf l) ∧
    ((∀ x ∈ l, ∀ y ∈ l, x.fileIndex = y.fileIndex → x = y) →
      (dedupedOf l).Pairwise (fun e1 e2 => ¬ sameTriple e1 e2) ∧
      dedupedOf (l ++ l) = dedupedOf l ∧
      ∀ fileOffset, FillCell (l ++ l) fileOffset = FillCell l fileOffset) := by
  refine ⟨uniqueConsec_chain' _, ?_⟩
  intro huniq
  have hmemD : ∀ (m : List GridEdgeData) (x : GridEdgeData),
      x ∈ dedupedOf m ↔ x ∈ m := by
    intro m x
    unfold dedupedOf
    rw [mem_uniqueConsec, mem_sortByKey]
  have hstrict : ∀ m : List GridEdgeData,
      (∀ x ∈ m, ∀ y ∈ m, x.fileIndex = y.fileIndex → x = y) →
      (dedupedOf m).Pairwise (fun x y => x.fileIndex < y.fileIndex) := by
    intro m hu
    apply pairwise_lt_of_sorted_chain (fun g : GridEdgeData => g.fileIndex)
    · exact List.Pairwise.sublist (uniqueConsec_sublist _)
        (sortByKey_pairwise (fun g : GridEdgeData => g.fileIndex) m)
    · exact uniqueConsec_chain' _
    · intro x hx y hy
      exact hu x ((hmemD m x).mp hx) y ((hmemD m y).mp hy)
  have huniq2 : ∀ x ∈ l ++ l, ∀ y ∈ l ++ l, x.fileIndex = y.fileIndex → x = y := by
    intro x hx y hy
    rw [List.mem_append] at hx hy
    exact huniq x (hx.elim id id) y (hy.elim id id)
  have hs1 := hstrict l huniq
  have hs2 := hstrict (l ++ l) huniq2
  have heq : dedupedOf (l ++ l) = dedupedOf l := by
    apply eq_of_pairwise_lt_mem_iff (fun g : GridEdgeData => g.fileIndex) _ _ hs2 hs1
    intro x
    rw [hmemD, hmemD, List.mem_append]
    tauto
  refine ⟨?_, heq, ?_⟩
  · exact hs1.imp
      (fun {e1 e2 : GridEdgeData} (h : e1.fileIndex < e2.fileIndex)
        (hs : sameTriple e1 e2) => absurd hs.2.2 (Nat.ne_of_lt h))
  · intro fileOffset
    cases l with
    | nil => rfl
    | cons g0 gs =>
      have hl : (g0 :: gs) ++ (g0 :: gs) = g0 :: (gs ++ g0 :: gs) :=
        List.cons_append g0 gs (g0 :: gs)
      have heq' : dedupedOf (g0 :: (gs ++ g0 :: gs)) = dedupedOf (g0 :: gs) := by
        rw [← hl]
        exact heq
      rw [hl]
      simp only [FillCell]
      rw [heq']

/-- C5 amended witness: the two-cell rasterization of one edge, added
twice. -/
theorem C5_amended_witness :
    List.Chain' (· ≠ ·)
      (dedupedOf [⟨⟨1, 2, ⟨0, 0⟩, ⟨0, 0⟩⟩, 5, 0⟩, ⟨⟨1, 2, ⟨0, 0⟩, ⟨0, 0⟩⟩, 6, 0⟩]) ∧
    (dedupedOf [⟨⟨1, 2, ⟨0, 0⟩, ⟨0, 0⟩⟩, 5, 0⟩,
        ⟨⟨1, 2, ⟨0, 0⟩, ⟨0, 0⟩⟩, 6, 0⟩]).Pairwise
      (fun e1 e2 => ¬ sameTriple e1 e2) ∧
    dedupedOf ([⟨⟨1, 2, ⟨0, 0⟩, ⟨0, 0⟩⟩, 5, 0⟩, ⟨⟨1, 2, ⟨0, 0⟩, ⟨0, 0⟩⟩, 6, 0⟩] ++
        [⟨⟨1, 2, ⟨0, 0⟩, ⟨0, 0⟩⟩, 5, 0⟩, ⟨⟨1, 2, ⟨0, 0⟩, ⟨0, 0⟩⟩, 6, 0⟩]) =
      dedupedOf [⟨⟨1, 2, ⟨0, 0⟩, ⟨0, 0⟩⟩, 5, 0⟩, ⟨⟨1, 2, ⟨0, 0⟩, ⟨0, 0⟩⟩, 6, 0⟩] ∧
    FillCell ([⟨⟨1, 2, ⟨0, 0⟩, ⟨0, 0⟩⟩, 5, 0⟩, ⟨⟨1, 2, ⟨0, 0⟩, ⟨0, 0⟩⟩, 6, 0⟩] ++
        [⟨⟨1, 2, ⟨0, 0⟩, ⟨0, 0⟩⟩, 5, 0⟩, ⟨⟨1, 2, ⟨0, 0⟩, ⟨0, 0⟩⟩, 6, 0⟩]) 0 =
      FillCell [⟨⟨1, 2, ⟨0, 0⟩, ⟨0, 0⟩⟩, 5, 0⟩, ⟨⟨1, 2, ⟨0, 0⟩, ⟨0, 0⟩⟩, 6, 0⟩] 0 :=
  ⟨(C5_amended _).1,
   ((C5_amended _).2 (by decide)).1,
   ((C5_amended _).2 (by decide)).2.1,
   ((C5_amended _).2 (by decide)).2.2 0⟩


lemma u32LE_length (n : Nat) : (u32LE n).length = 4 := rfl

lemma decodeU32_u32LE_append (n : Nat) (rest : List Nat) :
    decodeU32 (u32LE n ++ rest) = n % U32MOD := by
  simp only [u32LE, decodeU32, List.cons_append, List.nil_append,
    List.getD_cons_zero, List.getD_cons_succ, U32MOD]
  omega

lemma decodeI32_i32_roundtrip (z : Int) (h1 : -2147483648 ≤ z)
    (h2 : z < 2147483648) : decodeI32 ((z % (U32MOD : Int)).toNat) = z := by
  simp only [decodeI32, U32MOD]
  split <;> omega

lemma serEdge_length (e : _Edge) : (serEdge e).length = 24 := by
  simp [serEdge, i32LE, u32LE]

lemma flushEntries_nil :
    FlushEntriesWithSameFileIndexToBuffer [] = u32LE UINT_MAX := by
  simp [FlushEntriesWithSameFileIndexToBuffer]

lemma flushEntries_cons (e : GridEdgeData) (v : List GridEdgeData) :
    FlushEntriesWithSameFileIndexToBuffer (e :: v) =
      serEdge e.edge ++ FlushEntriesWithSameFileIndexToBuffer v := by
  simp [FlushEntriesWithSameFileIndexToBuffer]

lemma flushEntries_length (v : List GridEdgeData) :
    (FlushEntriesWithSameFileIndexToBuffer v).length = 24 * v.length + 4 := by
  induction v with
  | nil => simp [flushEntries_nil, u32LE]
  | cons e v ih =>
    rw [flushEntries_cons, List.length_append, serEdge_length, ih,
      List.length_cons]
    ring

lemma drop_append_len {α : Type} (X Y : List α) (k : Nat) :
    (X ++ Y).drop (X.length + k) = Y.drop k := by
  induction X with
  | nil => simp
  | cons a X ih =>
    rw [List.cons_append, List.length_cons]
    rw [show X.length + 1 + k = (X.length + k) + 1 by ring]
    rw [List.drop_succ_cons]
    exact ih

lemma drop_append_full {α : Type} (X Y : List α) :
    (X ++ Y).drop X.length = Y := by
  have h := drop_append_len X Y 0
  simpa using h

lemma drop_append_le {α : Type} (X Y : List α) (k : Nat) (h : k ≤ X.length) :
    (X ++ Y).drop k = X.drop k ++ Y := by
  induction X generalizing k with
  | nil =>
    simp at h
    simp [h]
  | cons a X ih =>
    cases k with
    | zero => simp
    | succ k =>
      rw [List.cons_append, List.drop_succ_cons, List.drop_succ_cons]
      exact ih k (by simpa using h)

lemma readRecordsGo_congr :
    ∀ (f1 f2 : Nat) (l : List Nat), l.length ≤ f1 → l.length ≤ f2 →
      readRecordsGo f1 l = readRecordsGo f2 l := by
  intro f1
  induction f1 with
  | zero =>
    intro f2 l h1 _
    have hl : l = [] := List.length_eq_zero.mp (by omega)
    subst hl
    cases f2 with
    | zero => rfl
    | succ f2 => simp [readRecordsGo]
  | succ f1 ih =>
    intro f2 l h1 h2
    cases f2 with
    | zero =>
      have hl : l = [] := List.length_eq_zero.mp (by omega)
      subst hl
      simp [readRecordsGo]
    | succ f2 =>
      simp only [readRecordsGo]
      split
      · rfl
      · rename_i hlen
        split
        · rfl
        · have hrec := ih f2 (l.drop 24) (by simp [List.length_drop]; omega)
            (by simp [List.length_drop]; omega)
          rw [hrec]

lemma readRecordsGo_sentinel (fuel : Nat) (rest : List Nat) :
    readRecordsGo fuel (u32LE UINT_MAX ++ rest) = [] := by
  cases fuel with
  | zero => rfl
  | succ fuel =>
    simp only [readRecordsGo]
    rw [if_neg (by simp [u32LE])]
    rw [if_pos]
    rw [decodeU32_u32LE_append]
    rfl

lemma readRecords_sentinel (rest : List Nat) :
    readRecords (u32LE UINT_MAX ++ rest) = [] :=
  readRecordsGo_sentinel _ _

lemma decode_i32LE_append (z : Int) (h1 : -2147483648 ≤ z)
    (h2 : z < 2147483648) (R : List Nat) :
    decodeI32 (decodeU32 (i32LE z ++ R)) = z := by
  rw [i32LE, decodeU32_u32LE_append]
  have hmod : (z % (U32MOD : Int)).toNat % U32MOD = (z % (U32MOD : Int)).toNat := by
    simp only [U32MOD]
    omega
  rw [hmod]
  exact decodeI32_i32_roundtrip z h1 h2

lemma drop_chunk (c : List Nat) (hc : c.length = 4) (R : List Nat) (k : Nat) :
    (c ++ R).drop (4 + k) = R.drop k := by
  rw [← hc]
  exact drop_append_len c R k

lemma readRecords_record (e : _Edge) (he : edgeInRange e) (tail : List Nat) :
    readRecords (serEdge e ++ tail) = e :: readRecords tail := by
  obtain ⟨h1, h2, h3, h4, h5, h6, h7, h8, h9, h10⟩ := he
  have hlen : (serEdge e ++ tail).length = tail.length + 23 + 1 := by
    rw [List.length_append, serEdge_length]
    ring
  have h0 : serEdge e ++ tail =
      u32LE e.start ++ (u32LE e.target ++ (i32LE e.startCoord.lat ++
        (i32LE e.startCoord.lon ++ (i32LE e.targetCoord.lat ++
          (i32LE e.targetCoord.lon ++ tail))))) := by
    simp [serEdge, List.append_assoc]
  have i32len : ∀ z : Int, (i32LE z).length = 4 := by
    intro z
    rw [i32LE, u32LE_length]
  have hd4 : (serEdge e ++ tail).drop 4 =
      u32LE e.target ++ (i32LE e.startCoord.lat ++ (i32LE e.startCoord.lon ++
        (i32LE e.targetCoord.lat ++ (i32LE e.targetCoord.lon ++ tail)))) := by
    rw [h0, show (4:Nat) = 4 + 0 from rfl, drop_chunk _ (u32LE_length _)]
    rfl
  have hd8 : (serEdge e ++ tail).drop 8 =
      i32LE e.startCoord.lat ++ (i32LE e.startCoord.lon ++
        (i32LE e.targetCoord.lat ++ (i32LE e.targetCoord.lon ++ tail))) := by
    rw [h0, show (8:Nat) = 4 + 4 from rfl, drop_chunk _ (u32LE_length _),
      show (4:Nat) = 4 + 0 from rfl, drop_chunk _ (u32LE_length _)]
    rfl
  have hd12 : (serEdge e ++ tail).drop 12 =
      i32LE e.startCoord.lon ++
        (i32LE e.targetCoord.lat ++ (i32LE e.targetCoord.lon ++ tail)) := by
    rw [h0, show (12:Nat) = 4 + 8 from rfl, drop_chunk _ (u32LE_length _),
      show (8:Nat) = 4 + 4 from rfl, drop_chunk _ (u32LE_length _),
      show (4:Nat) = 4 + 0 from rfl, drop_chunk _ (i32len _)]
    rfl
  have hd16 : (serEdge e ++ tail).drop 16 =
      i32LE e.targetCoord.lat ++ (i32LE e.targetCoord.lon ++ tail) := by
    rw [h0, show (16:Nat) = 4 + 12 from rfl, drop_chunk _ (u32LE_length _),
      show (12:Nat) = 4 + 8 from rfl, drop_chunk _ (u32LE_length _),
      show (8:Nat) = 4 + 4 from rfl, drop_chunk _ (i32len _),
      show (4:Nat) = 4 + 0 from rfl, drop_chunk _ (i32len _)]
    rfl
  have hd20 : (serEdge e ++ tail).drop 20 = i32LE e.targetCoord.lon ++ tail := by
    rw [h0, show (20:Nat) = 4 + 16 from rfl, drop_chunk _ (u32LE_length _),
      show (16:Nat) = 4 + 12 from rfl, drop_chunk _ (u32LE_length _),
      show (12:Nat) = 4 + 8 from rfl, drop_chunk _ (i32len _),
      show (8:Nat) = 4 + 4 from rfl, drop_chunk _ (i32len _),
      show (4:Nat) = 4 + 0 from rfl, drop_chunk _ (i32len _)]
    rfl
  have hd24 : (serEdge e ++ tail).drop 24 = tail := by
    rw [h0, show (24:Nat) = 4 + 20 from rfl, drop_chunk _ (u32LE_length _),
      show (20:Nat) = 4 + 16 from rfl, drop_chunk _ (u32LE_length _),
      show (16:Nat) = 4 + 12 from rfl, drop_chunk _ (i32len _),
      show (12:Nat) = 4 + 8 from rfl, drop_chunk _ (i32len _),
      show (8:Nat) = 4 + 4 from rfl, drop_chunk _ (i32len _),
      show (4:Nat) = 4 + 0 from rfl, drop_chunk _ (i32len _)]
    simp
  have hst : decodeU32 (serEdge e ++ tail) = e.start := by
    rw [h0, decodeU32_u32LE_append]
    simp only [UINT_MAX, U32MOD] at h1 ⊢
    omega
  have htg : decodeU32 ((serEdge e ++ tail).drop 4) = e.target := by
    rw [hd4, decodeU32_u32LE_append]
    simp only [U32MOD] at h2 ⊢
    omega
  show readRecordsGo ((serEdge e ++ tail).length) (serEdge e ++ tail) =
    e :: readRecords tail
  rw [hlen]
  rw [show readRecords tail = readRecordsGo tail.length tail from rfl]
  generalize hF : tail.length + 23 = F
  simp only [readRecordsGo]
  rw [hst, htg, hd8, hd12, hd16, hd20, hd24]
  rw [if_neg (by rw [List.length_append, serEdge_length]; omega)]
  rw [if_neg (Nat.ne_of_lt h1)]
  rw [decode_i32LE_append _ h3 h4, decode_i32LE_append _ h5 h6,
    decode_i32LE_append _ h7 h8, decode_i32LE_append _ h9 h10]
  rw [readRecordsGo_congr F tail.length tail (by omega) (le_refl _)]

lemma readRecords_flush (run : List GridEdgeData)
    (h : ∀ e ∈ run, edgeInRange e.edge) (rest : List Nat) :
    readRecords (FlushEntriesWithSameFileIndexToBuffer run ++ rest) =
      run.map (fun g => g.edge) := by
  induction run with
  | nil =>
    rw [flushEntries_nil, readRecords_sentinel]
    rfl
  | cons g v ih =>
    rw [flushEntries_cons, List.append_assoc,
      readRecords_record g.edge (h g (by simp)) _,
      ih (fun x hx => h x (by simp [hx]))]
    rfl


lemma headI_mem_self {α : Type} [Inhabited α] (l : List α) (h : l ≠ []) :
    l.headI ∈ l := by
  cases l with
  | nil => exact absurd rfl h
  | cons a t => exact List.mem_cons_self a t

lemma runs_join : ∀ l : List GridEdgeData, (runsByFileIndex l).flatten = l := by
  intro l
  induction l with
  | nil => rfl
  | cons e rest ih =>
    cases hrr : runsByFileIndex rest with
    | nil =>
      rw [hrr] at ih
      simp only [List.flatten_nil] at ih
      simp only [runsByFileIndex, hrr]
      simp [ih.symm]
    | cons r rs =>
      rw [hrr] at ih
      simp only [runsByFileIndex, hrr]
      split
      · simp only [List.flatten_cons] at ih ⊢
        rw [List.cons_append, ih]
      · simp only [List.flatten_cons] at ih ⊢
        rw [List.singleton_append, ih]

lemma runs_ne_nil : ∀ (l : List GridEdgeData), ∀ run ∈ runsByFileIndex l,
    run ≠ [] := by
  intro l
  induction l with
  | nil => intro run h; simp [runsByFileIndex] at h
  | cons e rest ih =>
    intro run hrun
    cases hrr : runsByFileIndex rest with
    | nil =>
      simp only [runsByFileIndex, hrr] at hrun
      simp at hrun
      simp [hrun]
    | cons r rs =>
      simp only [runsByFileIndex, hrr] at hrun
      split at hrun
      · rcases List.mem_cons.mp hrun with rfl | h
        · simp
        · exact ih run (by rw [hrr]; exact List.mem_cons_of_mem _ h)
      · rcases List.mem_cons.mp hrun with rfl | h
        · simp
        · exact ih run (by rw [hrr]; exact h)

lemma runs_const : ∀ (l : List GridEdgeData), ∀ run ∈ runsByFileIndex l,
    ∀ x ∈ run, x.fileIndex = runKey run := by
  intro l
  induction l with
  | nil => intro run h; simp [runsByFileIndex] at h
  | cons e rest ih =>
    intro run hrun x hx
    cases hrr : runsByFileIndex rest with
    | nil =>
      simp only [runsByFileIndex, hrr] at hrun
      simp at hrun
      subst hrun
      simp only [List.mem_singleton] at hx
      subst hx
      rfl
    | cons r rs =>
      simp only [runsByFileIndex, hrr] at hrun
      split at hrun
      · rename_i hkey
        rcases List.mem_cons.mp hrun with rfl | h
        · rcases List.mem_cons.mp hx with rfl | hxr
          · rfl
          · have hxk := ih r (by rw [hrr]; simp) x hxr
            rw [hxk]
            show runKey r = runKey (e :: r)
            rw [runKey, runKey]
            simp only [List.headI]
            exact hkey
        · exact ih run (by rw [hrr]; exact List.mem_cons_of_mem _ h) x hx
      · rcases List.mem_cons.mp hrun with rfl | h
        · simp only [List.mem_singleton] at hx
          subst hx
          rfl
        · exact ih run (by rw [hrr]; exact h) x hx

lemma runs_chain : ∀ l : List GridEdgeData,
    List.Chain' (fun r1 r2 => runKey r1 ≠ runKey r2) (runsByFileIndex l) := by
  intro l
  induction l with
  | nil => simp [runsByFileIndex]
  | cons e rest ih =>
    cases hrr : runsByFileIndex rest with
    | nil => simp [runsByFileIndex, hrr]
    | cons r rs =>
      rw [hrr] at ih
      simp only [runsByFileIndex, hrr]
      split
      · rename_i hkey
        cases rs with
        | nil => simp
        | cons r2 rs' =>
          rw [List.chain'_cons] at ih ⊢
          refine ⟨?_, ih.2⟩
          show runKey (e :: r) ≠ runKey r2
          have hre : runKey (e :: r) = runKey r := by
            rw [runKey, runKey]
            simp only [List.headI]
            exact hkey.symm
          rw [hre]
          exact ih.1
      · rename_i hkey
        rw [List.chain'_cons]
        refine ⟨?_, ih⟩
        show runKey [e] ≠ runKey r
        rw [runKey]
        simp only [List.headI]
        exact fun hh => hkey hh.symm

lemma runs_mem_of_mem_run {l : List GridEdgeData} {run : List GridEdgeData}
    {x : GridEdgeData} (hrun : run ∈ runsByFileIndex l) (hx : x ∈ run) :
    x ∈ l := by
  have hm := List.mem_flatten.mpr ⟨run, hrun, hx⟩
  rwa [runs_join] at hm

lemma runs_keys_le : ∀ l : List GridEdgeData,
    l.Pairwise (fun a b => a.fileIndex ≤ b.fileIndex) →
    ((runsByFileIndex l).map runKey).Pairwise (· ≤ ·) := by
  intro l
  induction l with
  | nil => intro _; simp [runsByFileIndex]
  | cons e rest ih =>
    intro hp
    rcases List.pairwise_cons.mp hp with ⟨he, hrest⟩
    have hkmem : ∀ ru ∈ runsByFileIndex rest, e.fileIndex ≤ runKey ru := by
      intro ru hru
      have hne := runs_ne_nil rest ru hru
      have hhead := headI_mem_self ru hne
      exact he ru.headI (runs_mem_of_mem_run hru hhead)
    cases hrr : runsByFileIndex rest with
    | nil => simp [runsByFileIndex, hrr]
    | cons r rs =>
      have ih' := ih hrest
      rw [hrr] at ih'
      simp only [runsByFileIndex, hrr]
      split
      · rename_i hkey
        rw [List.map_cons, List.pairwise_cons]
        rw [List.map_cons, List.pairwise_cons] at ih'
        constructor
        · intro k hk
          have h1 : runKey (e :: r) = runKey r := by
            rw [runKey, runKey]
            simp only [List.headI]
            exact hkey.symm
          rw [h1]
          exact ih'.1 k hk
        · exact ih'.2
      · rw [List.map_cons, List.pairwise_cons]
        constructor
        · intro k hk
          rw [show runKey [e] = e.fileIndex from rfl]
          rw [List.map_cons] at hk
          rcases List.mem_cons.mp hk with rfl | hk'
          · exact hkmem r (by rw [hrr]; simp)
          · rcases List.mem_map.mp hk' with ⟨ru, hru, rfl⟩
            exact hkmem ru (by rw [hrr]; exact List.mem_cons_of_mem _ hru)
        · exact ih'

lemma pairwise_lt_of_le_chain' : ∀ ks : List Nat, ks.Pairwise (· ≤ ·) →
    List.Chain' (· ≠ ·) ks → ks.Pairwise (· < ·) := by
  intro ks
  induction ks with
  | nil => intro _ _; simp
  | cons a t ih =>
    intro hp hc
    rcases List.pairwise_cons.mp hp with ⟨ha, ht⟩
    rw [List.pairwise_cons]
    cases t with
    | nil => simp
    | cons b t' =>
      have hab : a ≠ b := (List.chain'_cons.mp hc).1
      have hless := ih ht hc.tail
      constructor
      · intro x hx
        rcases List.mem_cons.mp hx with rfl | hx'
        · exact Nat.lt_of_le_of_ne (ha x (by simp)) hab
        · have h1 : a < b := Nat.lt_of_le_of_ne (ha b (by simp)) hab
          have h2 : b < x := (List.pairwise_cons.mp hless).1 x hx'
          omega
      · exact hless


lemma cellSlot_some_key {r k s : Nat} (h : cellSlot r k = some s) :
    cellKey r s = k := by
  unfold cellSlot at h
  have hp := List.find?_some h
  simpa using hp

lemma FillCellLoop_consume (r fo : Nat) :
    ∀ (run1 : List GridEdgeData) (ci : Nat → Nat) (buf : List Nat)
      (cur l1 : List GridEdgeData) (fi : Nat),
      (∀ e ∈ run1, e.fileIndex = fi) →
      FillCellLoop r fo ci buf cur fi (run1 ++ l1) =
        FillCellLoop r fo ci buf (cur ++ run1) fi l1 := by
  intro run1
  induction run1 with
  | nil => intro ci buf cur l1 fi _; simp
  | cons e run2 ih =>
    intro ci buf cur l1 fi h
    rw [List.cons_append]
    show FillCellLoop r fo ci buf cur fi (e :: (run2 ++ l1)) = _
    simp only [FillCellLoop]
    rw [if_neg (by simp [h e (by simp)])]
    rw [ih ci buf (cur ++ [e]) l1 fi (fun x hx => h x (by simp [hx]))]
    rw [List.append_assoc]
    rfl

lemma flushRuns_singleton (r fo : Nat) (cur : List GridEdgeData)
    (ci : Nat → Nat) (buf : List Nat) :
    flushRuns r fo [cur] ci buf = flushOne r fo ci buf cur := by
  simp only [flushRuns]
  cases hf : flushOne r fo ci buf cur with
  | none => rfl
  | some p => cases p with | mk ci1 buf1 => rfl

lemma FillCellLoop_eq_flushRuns (r fo : Nat) :
    ∀ (rs : List (List GridEdgeData)) (cur : List GridEdgeData) (fi : Nat)
      (ci : Nat → Nat) (buf : List Nat),
      cur ≠ [] → (∀ e ∈ cur, e.fileIndex = fi) →
      (∀ run ∈ rs, run ≠ []) →
      (∀ run ∈ rs, ∀ e ∈ run, e.fileIndex = runKey run) →
      List.Chain' (fun r1 r2 => runKey r1 ≠ runKey r2) (cur :: rs) →
      FillCellLoop r fo ci buf cur fi rs.flatten =
        flushRuns r fo (cur :: rs) ci buf := by
  intro rs
  induction rs with
  | nil =>
    intro cur fi ci buf hne _ _ _ _
    show FillCellLoop r fo ci buf cur fi [] = _
    rw [flushRuns_singleton]
    rfl
  | cons run rs' ih =>
    intro cur fi ci buf hne hcur hrune hrunc hchain
    have hrun_ne : run ≠ [] := hrune run (by simp)
    cases hrunE : run with
    | nil => exact absurd hrunE hrun_ne
    | cons r0 run2 =>
      subst hrunE
      have hfi : runKey cur = fi := hcur cur.headI (headI_mem_self cur hne)
      have hkey_ne : r0.fileIndex ≠ fi := by
        have h1 := (List.chain'_cons.mp hchain).1
        rw [hfi] at h1
        intro hh
        apply h1
        rw [show runKey (r0 :: run2) = r0.fileIndex from rfl, hh]
      rw [List.flatten_cons, List.cons_append]
      show FillCellLoop r fo ci buf cur fi (r0 :: (run2 ++ rs'.flatten)) =
        flushRuns r fo (cur :: (r0 :: run2) :: rs') ci buf
      simp only [FillCellLoop, flushRuns]
      rw [if_pos hkey_ne]
      cases hf : flushOne r fo ci buf cur with
      | none => rfl
      | some p =>
        cases p with
        | mk ci1 buf1 =>
          show FillCellLoop r fo ci1 buf1 [r0] r0.fileIndex
              (run2 ++ rs'.flatten) =
            flushRuns r fo ((r0 :: run2) :: rs') ci1 buf1
          rw [FillCellLoop_consume r fo run2 ci1 buf1 [r0] rs'.flatten
            r0.fileIndex
            (by
              intro x hx
              exact hrunc (r0 :: run2) (by simp) x (by simp [hx]))]
          rw [show [r0] ++ run2 = r0 :: run2 from rfl]
          exact ih (r0 :: run2) r0.fileIndex ci1 buf1 (by simp)
            (fun x hx => hrunc (r0 :: run2) (by simp) x hx)
            (fun ru hru => hrune ru (by simp [hru]))
            (fun ru hru e he => hrunc ru (by simp [hru]) e he)
            (by
              have hk := hchain.tail
              simpa using hk)

lemma FillCellLoop_top (r fo : Nat) (ci : Nat → Nat) (l : List GridEdgeData)
    (hl : l ≠ []) :
    FillCellLoop r fo ci [] [] l.headI.fileIndex l =
      flushRuns r fo (runsByFileIndex l) ci [] := by
  have hjoin := runs_join l
  cases hrs : runsByFileIndex l with
  | nil =>
    exfalso
    rw [hrs] at hjoin
    simp at hjoin
    exact hl hjoin
  | cons run0 rs =>
    have hrun0_ne : run0 ≠ [] := runs_ne_nil l run0 (by rw [hrs]; simp)
    cases hrun0 : run0 with
    | nil => exact absurd hrun0 hrun0_ne
    | cons d0 run0' =>
      have hl_eq : l = d0 :: (run0' ++ rs.flatten) := by
        conv_lhs => rw [← hjoin]
        rw [hrs, hrun0]
        rfl
      have hhead : l.headI = d0 := by rw [hl_eq]; rfl
      rw [hhead]
      conv_lhs => rw [hl_eq]
      show FillCellLoop r fo ci [] [] d0.fileIndex
        (d0 :: (run0' ++ rs.flatten)) = _
      simp only [FillCellLoop]
      rw [if_neg (by simp)]
      rw [show ([] : List GridEdgeData) ++ [d0] = [d0] from rfl]
      rw [FillCellLoop_consume r fo run0' ci [] [d0] rs.flatten d0.fileIndex
        (by
          intro x hx
          have hc := runs_const l run0 (by rw [hrs]; simp) x
            (by rw [hrun0]; simp [hx])
          rw [hc, hrun0]
          rfl)]
      rw [show [d0] ++ run0' = d0 :: run0' from rfl]
      rw [show (d0 :: run0') = run0 from hrun0.symm]
      rw [FillCellLoop_eq_flushRuns r fo rs run0 d0.fileIndex ci [] hrun0_ne
        (by
          intro x hx
          have hc := runs_const l run0 (by rw [hrs]; simp) x hx
          rw [hc, hrun0]
          rfl)
        (fun ru hru => runs_ne_nil l ru (by rw [hrs]; simp [hru]))
        (fun ru hru e he => runs_const l ru (by rw [hrs]; simp [hru]) e he)
        (by
          have hc := runs_chain l
          rw [hrs] at hc
          exact hc)]

lemma cellSlot_some_lt {r k s : Nat} (h : cellSlot r k = some s) : s < 1024 := by
  unfold cellSlot at h
  have hm := List.mem_of_find?_eq_some h
  simpa using hm

lemma bind_u32_append (f : Nat → Nat) (xs ys : List Nat) :
    (xs ++ ys).bind (fun t => u32LE (f t)) =
      xs.bind (fun t => u32LE (f t)) ++ ys.bind (fun t => u32LE (f t)) := by
  induction xs with
  | nil => rfl
  | cons a xs ih =>
    show u32LE (f a) ++ (xs ++ ys).bind (fun t => u32LE (f t)) = _
    rw [ih]
    rw [show (a :: xs).bind (fun t => u32LE (f t)) =
      u32LE (f a) ++ xs.bind (fun t => u32LE (f t)) from rfl]
    rw [List.append_assoc]

lemma bind_u32_singleton (f : Nat → Nat) (a : Nat) :
    ([a].bind (fun t => u32LE (f t))) = u32LE (f a) := by
  show u32LE (f a) ++ [] = u32LE (f a)
  rw [List.append_nil]

lemma rangeBind_length (f : Nat → Nat) (n : Nat) :
    ((List.range n).bind (fun s => u32LE (f s))).length = 4 * n := by
  induction n with
  | zero => rfl
  | succ n ih =>
    rw [List.range_succ, bind_u32_append, List.length_append, ih,
      bind_u32_singleton, u32LE_length]
    ring

lemma decode_rangeBind (f : Nat → Nat) :
    ∀ (n s : Nat), s < n → ∀ rest : List Nat,
      decodeU32 ((((List.range n).bind (fun t => u32LE (f t))) ++ rest).drop
        (4 * s)) = f s % U32MOD := by
  intro n
  induction n with
  | zero => intro s hs; exact absurd hs (Nat.not_lt_zero s)
  | succ n ih =>
    intro s hs rest
    rw [List.range_succ, bind_u32_append, List.append_assoc]
    by_cases hsn : s < n
    · exact ih s hsn _
    · have hseq : s = n := by omega
      subst hseq
      rw [bind_u32_singleton]
      rw [show 4 * s = ((List.range s).bind (fun t => u32LE (f t))).length from
        (rangeBind_length f s).symm]
      rw [drop_append_full]
      exact decodeU32_u32LE_append (f s) rest

lemma flushRuns_spec (r fo : Nat) :
    ∀ (rs : List (List GridEdgeData)) (ci : Nat → Nat) (buf : List Nat),
      (∀ run ∈ rs, run ≠ []) →
      (∀ run ∈ rs, (cellSlot r (runKey run)).isSome) →
      List.Pairwise (fun r1 r2 => runKey r1 ≠ runKey r2) rs →
      ∃ ci2 payload,
        flushRuns r fo rs ci buf = some (ci2, buf ++ payload) ∧
        payload.length ≤ 28 * rs.flatten.length ∧
        (∀ s, (∀ run ∈ rs, cellSlot r (runKey run) ≠ some s) → ci2 s = ci s) ∧
        (∀ run ∈ rs, ∃ s off tl,
          cellSlot r (runKey run) = some s ∧
          ci2 s = buf.length + off + fo ∧
          payload.drop off = FlushEntriesWithSameFileIndexToBuffer run ++ tl) := by
  intro rs
  induction rs with
  | nil =>
    intro ci buf _ _ _
    refine ⟨ci, [], by simp [flushRuns], by simp, fun s _ => rfl, ?_⟩
    intro run hrun
    simp at hrun
  | cons run rs' ih =>
    intro ci buf hne hslot hpair
    have hrne : run ≠ [] := hne run (by simp)
    cases hrunE : run with
    | nil => exact absurd hrunE hrne
    | cons c0 cs =>
      subst hrunE
      have hs0 := hslot (c0 :: cs) (by simp)
      cases hcs : cellSlot r (runKey (c0 :: cs)) with
      | none => rw [hcs] at hs0; simp at hs0
      | some s0 =>
        have hcs' : cellSlot r c0.fileIndex = some s0 := hcs
        have hstep : flushRuns r fo ((c0 :: cs) :: rs') ci buf =
            flushRuns r fo rs'
              (Function.update ci s0 (buf.length + fo))
              (buf ++ FlushEntriesWithSameFileIndexToBuffer (c0 :: cs)) := by
          simp only [flushRuns, flushOne, hcs']
        obtain ⟨ci2, payload2, hrun2, hlen2, hpres2, hper2⟩ :=
          ih (Function.update ci s0 (buf.length + fo))
            (buf ++ FlushEntriesWithSameFileIndexToBuffer (c0 :: cs))
            (fun ru hru => hne ru (by simp [hru]))
            (fun ru hru => hslot ru (by simp [hru]))
            (List.pairwise_cons.mp hpair).2
        refine ⟨ci2,
          FlushEntriesWithSameFileIndexToBuffer (c0 :: cs) ++ payload2,
          ?_, ?_, ?_, ?_⟩
        · rw [hstep, hrun2, List.append_assoc]
        · rw [List.length_append, flushEntries_length, List.flatten_cons,
            List.length_append]
          simp only [List.length_cons]
          omega
        · intro s hs
          have hss : s ≠ s0 := by
            intro hss
            exact hs (c0 :: cs) (by simp) (by rw [hcs, hss])
          have h1 := hpres2 s (fun ru hru => hs ru (by simp [hru]))
          rw [h1, Function.update_noteq hss]
        · intro ru hru
          rcases List.mem_cons.mp hru with rfl | hru2
          · refine ⟨s0, 0, payload2, hcs, ?_, by simp⟩
            have hnot : ∀ ru2 ∈ rs', cellSlot r (runKey ru2) ≠ some s0 := by
              intro ru2 hru2 hcsru2
              have hk1 : cellKey r s0 = runKey (c0 :: cs) := cellSlot_some_key hcs
              have hk2 : cellKey r s0 = runKey ru2 := cellSlot_some_key hcsru2
              exact (List.pairwise_cons.mp hpair).1 ru2 hru2 (hk1.symm.trans hk2)
            rw [hpres2 s0 hnot, Function.update_same]
            omega
          · obtain ⟨s, off, tl, h1, h2, h3⟩ := hper2 ru hru2
            refine ⟨s,
              (FlushEntriesWithSameFileIndexToBuffer (c0 :: cs)).length + off,
              tl, h1, ?_, ?_⟩
            · rw [h2, List.length_append]; ring
            · rw [drop_append_len]; exact h3

lemma filter_flatten_runs :
    ∀ (rs : List (List GridEdgeData)),
      (∀ ru ∈ rs, ∀ e ∈ ru, e.fileIndex = runKey ru) →
      List.Pairwise (fun r1 r2 => runKey r1 ≠ runKey r2) rs →
      ∀ ru ∈ rs,
        rs.flatten.filter (fun e => decide (e.fileIndex = runKey ru)) = ru := by
  intro rs
  induction rs with
  | nil => intro _ _ ru hru; simp at hru
  | cons r0 rs' ih =>
    intro hconst hpair ru hru
    rw [List.flatten_cons, List.filter_append]
    rcases List.mem_cons.mp hru with rfl | hru2
    · have hf1 : ru.filter (fun e => decide (e.fileIndex = runKey ru)) = ru :=
        List.filter_eq_self.mpr (fun e he => by simp [hconst ru (by simp) e he])
      have hf2 : rs'.flatten.filter
          (fun e => decide (e.fileIndex = runKey ru)) = [] := by
        rw [List.filter_eq_nil_iff]
        intro e he
        rcases List.mem_flatten.mp he with ⟨ru2, hru2, he2⟩
        have h1 := hconst ru2 (by simp [hru2]) e he2
        have h2 := (List.pairwise_cons.mp hpair).1 ru2 hru2
        simp only [h1, decide_eq_true_eq]
        exact fun hh => h2 hh.symm
      rw [hf1, hf2, List.append_nil]
    · have hf1 : r0.filter (fun e => decide (e.fileIndex = runKey ru)) = [] := by
        rw [List.filter_eq_nil_iff]
        intro e he
        have h1 := hconst r0 (by simp) e he
        have h2 := (List.pairwise_cons.mp hpair).1 ru hru2
        simp only [h1, decide_eq_true_eq]
        exact h2
      rw [hf1, List.nil_append]
      exact ih (fun ru2 h2 e he => hconst ru2 (by simp [h2]) e he)
        (List.pairwise_cons.mp hpair).2 ru hru2

lemma GetContents_eq (table : Nat → Nat) (file : List Nat) (fc r s : Nat)
    (hram : getRAMIndexFromFileIndex fc = r)
    (hT : table r ≠ UINT_MAX)
    (hcs : cellSlot r fc = some s)
    (hd : decodeU32 ((file.drop (table r)).drop (4 * s)) ≠ UINT_MAX) :
    GetContentsOfFileBucket table file fc =
      readRecords (file.drop
        (decodeU32 ((file.drop (table r)).drop (4 * s)) + 4096)) := by
  simp only [GetContentsOfFileBucket, hram]
  rw [if_neg hT, hcs]
  show (if decodeU32 ((file.drop (table r)).drop (4 * s)) = UINT_MAX then []
    else readRecords (file.drop
      (decodeU32 ((file.drop (table r)).drop (4 * s)) + 4096))) = _
  rw [if_neg hd]

/-- **C3, corrected.**  For a non-empty group of entries sharing RAM index
`r` (as `ConstructGrid` passes to `FillCell`), with consistent file/RAM
indexes and representable edges: the super-bucket `FillCell` writes starts
with the 1024-entry child directory, and every occupied directory entry
stores `fileOffset + off` where `off` is the **payload-relative** offset of
the slot\'s first record — the absolute file offset of that record is
`fileOffset + 4096 + off`, so the stored value is the absolute offset
*minus 4096* (the directory\'s own size), not the absolute offset itself as
the frozen claim states.  Correspondingly the reader
(`GetContentsOfFileBucket`, NNGrid.h:519-532) does not seek directly to
`directory[c]` but to `directory[c] + 32*32*sizeof(unsigned)`, and then
recovers exactly the slot\'s records up to the sentinel. -/
theorem C3_amended (g : List GridEdgeData) (r fileOffset : Nat)
    (table : Nat → Nat) (pre post : List Nat)
    (hg : g ≠ [])
    (hr : ∀ e ∈ g, e.ramIndex = r)
    (hv : ∀ e ∈ g, validEntry e)
    (he : ∀ e ∈ g, edgeInRange e.edge)
    (hpre : pre.length = fileOffset)
    (htable : table r = fileOffset)
    (hsmall : fileOffset + 28 * g.length + 4 < UINT_MAX) :
    ∃ bytes : List Nat,
      FillCell g fileOffset = some (bytes, bytes.length) ∧
      ∀ fc ∈ (dedupedOf g).map (fun x => x.fileIndex),
        ∃ s off tl,
          cellSlot r fc = some s ∧
          decodeU32 (bytes.drop (4 * s)) = fileOffset + off ∧
          fileOffset + off ≠ UINT_MAX ∧
          (pre ++ bytes ++ post).drop (fileOffset + off + 4096) =
            FlushEntriesWithSameFileIndexToBuffer
              ((dedupedOf g).filter (fun x => decide (x.fileIndex = fc))) ++ tl ∧
          GetContentsOfFileBucket table (pre ++ bytes ++ post) fc =
            ((dedupedOf g).filter (fun x => decide (x.fileIndex = fc))).map
              (fun x => x.edge) := by
  have hU : UINT_MAX = 4294967295 := rfl
  have hU2 : U32MOD = 4294967296 := rfl
  have hsub : ∀ x ∈ dedupedOf g, x ∈ g := by
    intro x hx
    simp only [dedupedOf] at hx
    exact (mem_sortByKey (fun y : GridEdgeData => y.fileIndex) x g).mp
      (mem_of_mem_uniqueConsec hx)
  have hdlen : (dedupedOf g).length ≤ g.length := by
    simp only [dedupedOf]
    have h2 := (uniqueConsec_sublist
      (sortByKey (fun y : GridEdgeData => y.fileIndex) g)).length_le
    rwa [sortByKey_length] at h2
  have hsorted : (dedupedOf g).Pairwise
      (fun a b => a.fileIndex ≤ b.fileIndex) := by
    simp only [dedupedOf]
    exact (sortByKey_pairwise (fun y : GridEdgeData => y.fileIndex) g).sublist
      (uniqueConsec_sublist _)
  have hconst : ∀ ru ∈ runsByFileIndex (dedupedOf g), ∀ x ∈ ru,
      x.fileIndex = runKey ru := fun ru hru x hx => runs_const _ ru hru x hx
  have hrne : ∀ ru ∈ runsByFileIndex (dedupedOf g), ru ≠ [] :=
    fun ru hru => runs_ne_nil _ ru hru
  have hpairruns : List.Pairwise (fun r1 r2 => runKey r1 ≠ runKey r2)
      (runsByFileIndex (dedupedOf g)) := by
    have hkeys := runs_keys_le _ hsorted
    have hchain : List.Chain' (· ≠ ·)
        ((runsByFileIndex (dedupedOf g)).map runKey) := by
      rw [List.chain'_map]
      exact runs_chain (dedupedOf g)
    have hlt := pairwise_lt_of_le_chain' _ hkeys hchain
    have hlt2 := List.pairwise_map.mp hlt
    exact hlt2.imp (fun h => Nat.ne_of_lt h)
  have hslotruns : ∀ ru ∈ runsByFileIndex (dedupedOf g),
      (cellSlot r (runKey ru)).isSome := by
    intro ru hru
    have hne := hrne ru hru
    have hh : ru.headI ∈ g :=
      hsub ru.headI (runs_mem_of_mem_run hru (headI_mem_self ru hne))
    have hv2 := hv ru.headI hh
    have hr2 := hr ru.headI hh
    have h3 := cellSlot_isSome_of_valid hv2
    rw [hr2] at h3
    exact h3
  cases g with
  | nil => exact absurd rfl hg
  | cons g0 grest =>
    have hded_ne : dedupedOf (g0 :: grest) ≠ [] := by
      simp only [dedupedOf]
      apply uniqueConsec_ne_nil
      intro hnil
      have hlen := congrArg List.length hnil
      rw [sortByKey_length] at hlen
      simp at hlen
    obtain ⟨d0, drest, hded⟩ : ∃ d0 drest,
        dedupedOf (g0 :: grest) = d0 :: drest := by
      cases hd2 : dedupedOf (g0 :: grest) with
      | nil => exact absurd hd2 hded_ne
      | cons a b => exact ⟨a, b, rfl⟩
    rw [hded] at hsub hdlen hsorted hconst hrne hpairruns hslotruns ⊢
    have hram0 : g0.ramIndex = r := hr g0 (by simp)
    obtain ⟨ci2, payload, hflush, hplen, hpres, hper⟩ :=
      flushRuns_spec r fileOffset (runsByFileIndex (d0 :: drest))
        (fun _ => UINT_MAX) [] hrne hslotruns hpairruns
    rw [List.nil_append] at hflush
    have htop2 : FillCellLoop r fileOffset (fun _ => UINT_MAX) [] []
        d0.fileIndex (d0 :: drest) =
        flushRuns r fileOffset (runsByFileIndex (d0 :: drest))
          (fun _ => UINT_MAX) [] :=
      FillCellLoop_top r fileOffset (fun _ => UINT_MAX) (d0 :: drest) (by simp)
    have hloop : FillCellLoop g0.ramIndex fileOffset (fun _ => UINT_MAX) [] []
        d0.fileIndex (d0 :: drest) = some (ci2, payload) := by
      rw [hram0, htop2, hflush]
    have hFC : FillCell (g0 :: grest) fileOffset =
        some ((List.range 1024).bind (fun t => u32LE (ci2 t)) ++ payload,
          4096 + payload.length) := by
      simp only [FillCell, hded, hloop]
    have hDIRlen : ((List.range 1024).bind (fun t => u32LE (ci2 t))).length
        = 4096 := by rw [rangeBind_length]
    refine ⟨(List.range 1024).bind (fun t => u32LE (ci2 t)) ++ payload, ?_, ?_⟩
    · rw [hFC, show ((List.range 1024).bind (fun t => u32LE (ci2 t))
          ++ payload).length = 4096 + payload.length from by
        rw [List.length_append, hDIRlen]]
    · intro fc hfc
      obtain ⟨e, he2, hfe⟩ := List.mem_map.mp hfc
      have hfe2 : e.fileIndex = fc := hfe
      subst hfe2
      have he3 : e ∈ (runsByFileIndex (d0 :: drest)).flatten := by
        rw [runs_join]; exact he2
      obtain ⟨run, hrun, herun⟩ := List.mem_flatten.mp he3
      have hkey : e.fileIndex = runKey run := hconst run hrun e herun
      obtain ⟨s, off, tl, hcs, hci, hdrop⟩ := hper run hrun
      rw [← hkey] at hcs
      have hci2 : ci2 s = off + fileOffset := by rw [hci]; simp
      have hs1024 := cellSlot_some_lt hcs
      have hofflt : off + 4 ≤ payload.length := by
        have h1 := congrArg List.length hdrop
        rw [List.length_drop, List.length_append, flushEntries_length] at h1
        omega
      have hplen2 : payload.length ≤ 28 * (g0 :: grest).length := by
        rw [runs_join] at hplen
        have h8 : (d0 :: drest).length ≤ (g0 :: grest).length := hdlen
        calc payload.length ≤ 28 * (d0 :: drest).length := hplen
          _ ≤ 28 * (g0 :: grest).length := by omega
      have hdU : fileOffset + off < UINT_MAX := by
        rw [hU]
        have h7 := hsmall
        rw [hU] at h7
        omega
      have hdec : decodeU32 ((((List.range 1024).bind (fun t => u32LE (ci2 t)))
          ++ payload).drop (4 * s)) = fileOffset + off := by
        rw [decode_rangeBind ci2 1024 s hs1024 payload, hci2,
          Nat.mod_eq_of_lt (by
            have h9 := hdU
            rw [hU] at h9
            rw [hU2]
            omega)]
        omega
      have hfilter : (d0 :: drest).filter
          (fun x => decide (x.fileIndex = e.fileIndex)) = run := by
        have h1 := filter_flatten_runs (runsByFileIndex (d0 :: drest))
          hconst hpairruns run hrun
        rw [runs_join] at h1
        rw [← hkey] at h1
        exact h1
      have hassoc : (pre ++ ((List.range 1024).bind (fun t => u32LE (ci2 t))
            ++ payload)) ++ post =
          (pre ++ (List.range 1024).bind (fun t => u32LE (ci2 t))) ++
            (payload ++ post) := by
        simp [List.append_assoc]
      have hpreDIR : (pre ++ (List.range 1024).bind
          (fun t => u32LE (ci2 t))).length = fileOffset + 4096 := by
        rw [List.length_append, hpre, hDIRlen]
      have hdropEq : ((pre ++ ((List.range 1024).bind (fun t => u32LE (ci2 t))
            ++ payload)) ++ post).drop (fileOffset + off + 4096) =
          FlushEntriesWithSameFileIndexToBuffer run ++ (tl ++ post) := by
        rw [hassoc,
          show fileOffset + off + 4096 =
            (pre ++ (List.range 1024).bind
              (fun t => u32LE (ci2 t))).length + off from by
            rw [hpreDIR]; ring,
          drop_append_len, drop_append_le payload post off (by omega),
          hdrop, List.append_assoc]
      have hread : readRecords (((pre ++ ((List.range 1024).bind
            (fun t => u32LE (ci2 t)) ++ payload)) ++ post).drop
            (fileOffset + off + 4096)) = run.map (fun x => x.edge) := by
        rw [hdropEq]
        exact readRecords_flush run
          (fun x hx => he x (hsub x (runs_mem_of_mem_run hrun hx))) (tl ++ post)
      have hram2 : getRAMIndexFromFileIndex e.fileIndex = r := by
        have hv2 := hv e (hsub e he2)
        have hr2 := hr e (hsub e he2)
        rw [← hv2.1, hr2]
      have hTne : table r ≠ UINT_MAX := by
        rw [htable]
        intro hh
        rw [hU] at hh
        have h7 := hsmall
        rw [hU] at h7
        omega
      have hdropfo : ((pre ++ ((List.range 1024).bind (fun t => u32LE (ci2 t))
            ++ payload)) ++ post).drop (table r) =
          ((List.range 1024).bind (fun t => u32LE (ci2 t)) ++ payload)
            ++ post := by
        rw [htable, List.append_assoc, ← hpre, drop_append_full]
      have hdval : decodeU32 ((((pre ++ ((List.range 1024).bind
            (fun t => u32LE (ci2 t)) ++ payload)) ++ post).drop
            (table r)).drop (4 * s)) = fileOffset + off := by
        rw [hdropfo, List.append_assoc,
          decode_rangeBind ci2 1024 s hs1024 (payload ++ post), hci2,
          Nat.mod_eq_of_lt (by
            have h9 := hdU
            rw [hU] at h9
            rw [hU2]
            omega)]
        omega
      have hG := GetContents_eq table ((pre ++ ((List.range 1024).bind
          (fun t => u32LE (ci2 t)) ++ payload)) ++ post) e.fileIndex r s
        hram2 hTne hcs (by rw [hdval]; exact Nat.ne_of_lt hdU)
      refine ⟨s, off, tl ++ post, hcs, hdec, Nat.ne_of_lt hdU, ?_, ?_⟩
      · rw [hfilter]
        exact hdropEq
      · rw [hG, hdval, hread, hfilter]

/-- Witness for `C3_amended`: the singleton group `cexGroup` at
`fileOffset = 0`, with the RAM directory sending RAM cell 0 to offset 0. -/
theorem C3_amended_witness :
    ∃ bytes : List Nat,
      FillCell cexGroup 0 = some (bytes, bytes.length) ∧
      ∀ fc ∈ (dedupedOf cexGroup).map (fun x => x.fileIndex),
        ∃ s off tl,
          cellSlot 0 fc = some s ∧
          decodeU32 (bytes.drop (4 * s)) = 0 + off ∧
          0 + off ≠ UINT_MAX ∧
          ([] ++ bytes ++ []).drop (0 + off + 4096) =
            FlushEntriesWithSameFileIndexToBuffer
              ((dedupedOf cexGroup).filter
                (fun x => decide (x.fileIndex = fc))) ++ tl ∧
          GetContentsOfFileBucket (fun _ => 0) ([] ++ bytes ++ []) fc =
            ((dedupedOf cexGroup).filter
              (fun x => decide (x.fileIndex = fc))).map (fun x => x.edge) :=
  C3_amended cexGroup 0 0 (fun _ => 0) [] []
    (by decide) (by decide) (by decide) (by decide) (by decide) (by rfl)
    (by decide)

/-- **C3, counterexample to the frozen wording.**  Building the super-bucket
of the single-entry group `cexGroup` at `fileOffset = 0` stores `0` in the
child-directory entry of the group\'s slot (slot 0, bytes 0..3 of the
output), while the absolute offset of the slot\'s first 24-byte record is
`4096` — the record\'s leading node id `1` is found there, right after the
1024-entry directory.  The stored entry is thus the record\'s absolute
offset minus 4096, not the absolute offset the claim states, and a reader
seeking directly to `directory[c] = 0` would land on the directory itself. -/
theorem C3_counterexample :
    (FillCell cexGroup 0).map
        (fun p => (decodeU32 p.1, decodeU32 (p.1.drop 4096), p.2)) =
      some (0, 1, 4124) ∧ (0 : Nat) ≠ 4096 := by
  have hcs : cellSlot 0 0 = some 0 := by decide
  have hded : dedupedOf [cexEntry] = [cexEntry] := by decide
  have hloop : FillCellLoop 0 0 (fun _ => UINT_MAX) [] [] cexEntry.fileIndex
      [cexEntry] =
      some (Function.update (fun _ => UINT_MAX) 0 0,
        FlushEntriesWithSameFileIndexToBuffer [cexEntry]) := by
    simp only [FillCellLoop]
    rw [if_neg (show ¬(cexEntry.fileIndex ≠ cexEntry.fileIndex) from by simp)]
    show flushOne 0 0 (fun _ => UINT_MAX) [] ([] ++ [cexEntry]) = _
    simp only [flushOne, List.nil_append]
    rw [show cexEntry.fileIndex = 0 from rfl, hcs]
    simp
  have hram : cexEntry.ramIndex = 0 := rfl
  have hFC : FillCell cexGroup 0 =
      some ((List.range 1024).bind
          (fun s => u32LE (Function.update (fun _ => UINT_MAX) 0 0 s)) ++
        FlushEntriesWithSameFileIndexToBuffer [cexEntry],
        4096 + (FlushEntriesWithSameFileIndexToBuffer [cexEntry]).length) := by
    simp only [FillCell, cexGroup, hded, hram, hloop]
  have hDIRlen : ((List.range 1024).bind
      (fun s => u32LE (Function.update (fun _ => UINT_MAX) 0 0 s))).length
      = 4096 := by rw [rangeBind_length]
  constructor
  · rw [hFC]
    rw [Option.map_some']
    have h1 : decodeU32 ((List.range 1024).bind
        (fun s => u32LE (Function.update (fun _ => UINT_MAX) 0 0 s)) ++
        FlushEntriesWithSameFileIndexToBuffer [cexEntry]) = 0 := by
      have h2 := decode_rangeBind (Function.update (fun _ => UINT_MAX) 0 0)
        1024 0 (by norm_num) (FlushEntriesWithSameFileIndexToBuffer [cexEntry])
      simpa using h2
    have h2 : decodeU32 (((List.range 1024).bind
        (fun s => u32LE (Function.update (fun _ => UINT_MAX) 0 0 s)) ++
        FlushEntriesWithSameFileIndexToBuffer [cexEntry]).drop 4096) = 1 := by
      rw [← hDIRlen, drop_append_full]
      decide
    have h3 : 4096 + (FlushEntriesWithSameFileIndexToBuffer [cexEntry]).length
        = 4124 := by decide
    rw [h1, h2, h3]
  · decide

end Theorems

